import Mathlib

/-!
Verification of the LaTeX table generator in script-generator.js.

The generator is embedded shallowly: the click handler of generateBtn is
modelled as a pure function from the form fields, a stream of random draws
and the previously displayed output string to the new output strings.
Strings are built exactly as the source builds them, one appended chunk at
a time; the chunk lists fullPieces and previewPieces below record the
sequence of += operations of the source, and the output strings are their
concatenations.
-/

set_option maxRecDepth 4000

/-- Configuration record read from the form after validation. The source
keeps these in closure variables rows, columns, style, hasHeader,
autoNumber, fontStyle, isNumeric; validation guarantees rows and columns
are positive, so they are carried as Nat here. -/
structure TableConfig where
  rows : Nat
  columns : Nat
  style : String
  hasHeader : Bool
  autoNumber : Bool
  fontStyle : String
  isNumeric : Bool
deriving DecidableEq

/-- Embedding of applyFontStyle: a switch on fontStyle whose only
non-default case is the string bold, wrapping the text in a textbf
directive; every other fontStyle value falls through to the default branch
and returns the text unchanged. -/
def applyFontStyle (text fontStyle : String) : String :=
  if fontStyle = "bold" then "\\textbf\x7b" ++ text ++ "\x7d" else text

/-- Decimal digit characters, used to model the JavaScript number to
string conversion. -/
def digitChar (d : Nat) : Char :=
  if d = 0 then '0' else if d = 1 then '1' else if d = 2 then '2'
  else if d = 3 then '3' else if d = 4 then '4' else if d = 5 then '5'
  else if d = 6 then '6' else if d = 7 then '7' else if d = 8 then '8' else '9'

/-- Fuel-driven decimal rendering of a natural number, most significant
digit first. With fuel at least n + 1 this renders n fully. -/
def natToStringAux : Nat → Nat → List Char
  | 0, _ => []
  | fuel + 1, n =>
    if n < 10 then [digitChar n]
    else natToStringAux fuel (n / 10) ++ [digitChar (n % 10)]

/-- Models the JavaScript toString conversion of a nonnegative integer:
its plain decimal digits. -/
def natToString (n : Nat) : String := String.mk (natToStringAux (n + 1) n)

/-- Four zero-padded decimal digits of a number below 10000, as produced
inside toFixed with four fraction digits. -/
def padFour (m : Nat) : List Char :=
  [digitChar (m / 1000 % 10), digitChar (m / 100 % 10),
   digitChar (m / 10 % 10), digitChar (m % 10)]

/-- Removes trailing zero characters, modelling the shortest round-trip
decimal rendering that the JavaScript toString rule applies to a float
that is exactly a four-digit decimal fraction. -/
def stripZeros (l : List Char) : List Char :=
  (l.reverse.dropWhile (fun c => c = '0')).reverse

/-- Decimal text of the rational n / 10000 with trailing fraction zeros
removed: the result of parseFloat applied to a toFixed four rendering and
converted back to text by toString. -/
def fixedText (n : Nat) : String :=
  if n % 10000 = 0 then natToString (n / 10000)
  else natToString (n / 10000) ++ "." ++ String.mk (stripZeros (padFour (n % 10000)))

/-- Models the rounding of toFixed with four fraction digits applied to a
random draw. A draw k encodes the double k mod 2 pow 53 over 2 pow 53,
the value grid of Math.random; toFixed rounds x to the nearest multiple
of one ten-thousandth, half away from zero, which for nonnegative x is
the floor of x times 10000 plus one half. -/
def toFixedFour (k : Nat) : Nat := (k % 2 ^ 53 * 10000 + 2 ^ 52) / 2 ^ 53

/-- Embedding of generateRandomValue followed by toString: the cell text
produced for a numeric cell from the draw k. -/
def randomCellText (k : Nat) : String := fixedText (toFixedFour k)

/-- Cell value text for data cell j (zero-based) of data row i (one-based).
The source draws Math.random once per numeric cell, in row-major order, so
the draw index of cell i j is (i - 1) * columns + j; non-numeric cells get
the literal placeholder label Kolumna followed by j + 1. -/
def cellText (cfg : TableConfig) (rng : Nat → Nat) (i j : Nat) : String :=
  if cfg.isNumeric then randomCellText (rng ((i - 1) * cfg.columns + j))
  else "Kolumna" ++ natToString (j + 1)

/-- The inner column loop of the row builder. The source walks j from 0 to
columns - 1, appending each styled cell to rowOutput with a separator
after every cell except the last, and appending the same cell text to
rowPreview only while j is below previewColumns, again with a separator
after every preview cell except the last. Here k counts the remaining
iterations, so the current index is cols - k - 1 plus 1 steps onward. -/
def rowLoop (cols pCols : Nat) (f : Nat → String) : Nat → String × String
  | 0 => ("", "")
  | k + 1 =>
    let j := cols - (k + 1)
    let cell := f j
    let rest := rowLoop cols pCols f k
    (cell ++ (if j < cols - 1 then " & " else "") ++ rest.1,
     (if j < pCols then cell ++ (if j < pCols - 1 then " & " else "") ++ rest.2
      else rest.2))

/-- The pair rowOutput, rowPreview built for data row i: the optional
automatic row number cell followed by the column loop over the shared
styled cell texts. -/
def rowBodies (cfg : TableConfig) (rng : Nat → Nat) (i : Nat) : String × String :=
  let base := if cfg.autoNumber then applyFontStyle (natToString i) cfg.fontStyle ++ " & " else ""
  let p := rowLoop cfg.columns (min cfg.columns 5)
    (fun j => applyFontStyle (cellText cfg rng i j) cfg.fontStyle) cfg.columns
  (base ++ p.1, base ++ p.2)

/-- The chunk appended to latexOutput for data row i. -/
def rowPieceOut (cfg : TableConfig) (rng : Nat → Nat) (i : Nat) : String :=
  (rowBodies cfg rng i).1 ++ " \\\\\n"

/-- The chunk appended to latexPreview for data row i. -/
def rowPieceP (cfg : TableConfig) (rng : Nat → Nat) (i : Nat) : String :=
  (rowBodies cfg rng i).2 ++ " \\\\\n"

/-- The row loop of the generator as chunk lists. k counts remaining
iterations; the current row index is rows - k + 1 onward, so the first
component lists, for each i from rows - k + 1 to rows, the row chunk
followed by the conditional rule chunks the source appends after it, and
the second component the corresponding preview chunks. -/
def rowPieces (cfg : TableConfig) (rng : Nat → Nat) : Nat → List String × List String
  | 0 => ([], [])
  | k + 1 =>
    let i := cfg.rows - k
    let rest := rowPieces cfg rng k
    ([rowPieceOut cfg rng i]
      ++ (if cfg.style = "horizontal" ∧ i < cfg.rows then ["\\hline\n"] else [])
      ++ (if cfg.style = "full" ∧ i < cfg.rows then ["\\hline\n"] else [])
      ++ rest.1,
     (if i ≤ min cfg.rows 5 then [rowPieceP cfg rng i] else [])
      ++ (if cfg.style = "horizontal" ∧ i < cfg.rows ∧ i < min cfg.rows 5 then ["\\hline\n"] else [])
      ++ (if cfg.style = "full" ∧ i < cfg.rows ∧ i < min cfg.rows 5 then ["\\hline\n"] else [])
      ++ rest.2)

/-- Joins a list of strings with a separator between consecutive entries,
modelling the join method of JavaScript arrays. -/
def joinSep (sep : String) : List String → String
  | [] => ""
  | [s] => s
  | s :: rest => s ++ sep ++ joinSep sep rest

/-- The generated header label for data column index i (zero-based in the
source array builder, rendered one-based). -/
def headerLabel (cfg : TableConfig) (i : Nat) : String :=
  applyFontStyle ("Nagłówek " ++ natToString (i + 1)) cfg.fontStyle

/-- The list of generated header labels over n data columns, modelling the
Array from construction of the source. -/
def headerCells (cfg : TableConfig) (n : Nat) : List String :=
  (List.range n).map (headerLabel cfg)

/-- The header row chunk of latexOutput: the optional row number header
cell, the joined generated labels, and the row end marker. -/
def headerPieceOut (cfg : TableConfig) : String :=
  (if cfg.autoNumber then applyFontStyle "Numer wiersza" cfg.fontStyle ++ " & " else "")
    ++ joinSep " & " (headerCells cfg cfg.columns) ++ " \\\\\n"

/-- The header row chunk of latexPreview, built over only the preview
column count. -/
def headerPieceP (cfg : TableConfig) : String :=
  (if cfg.autoNumber then applyFontStyle "Numer wiersza" cfg.fontStyle ++ " & " else "")
    ++ joinSep " & " (headerCells cfg (min cfg.columns 5)) ++ " \\\\\n"

/-- Models the repeat method of JavaScript strings. -/
def srep (s : String) : Nat → String
  | 0 => ""
  | n + 1 => s ++ srep s n

/-- The column specification chunk appended right after the opening brace:
a switch on the style value whose cases are full and horizontal, with
every other value handled by the default branch. -/
def stylePiece (style : String) (autoNumber : Bool) (total : Nat) : String :=
  if style = "full" then "|" ++ srep "c|" total ++ "\x7d\n\\hline\n"
  else if style = "horizontal" then
    (if autoNumber then "c|" ++ srep "c " (total - 1) else srep "c " total) ++ "\x7d\n"
  else srep "c " total ++ "\x7d\n"

/-- Total column count including the automatic numbering column. -/
def totalColumns (cfg : TableConfig) : Nat :=
  if cfg.autoNumber then cfg.columns + 1 else cfg.columns

/-- Total preview column count including the automatic numbering column. -/
def totalPreviewColumns (cfg : TableConfig) : Nat :=
  if cfg.autoNumber then min cfg.columns 5 + 1 else min cfg.columns 5

/-- The sequence of chunks the source appends to latexOutput, in order. -/
def fullPieces (cfg : TableConfig) (rng : Nat → Nat) : List String :=
  ["\\begin\x7btabular\x7d\x7b", stylePiece cfg.style cfg.autoNumber (totalColumns cfg)]
    ++ (if cfg.hasHeader then
          [headerPieceOut cfg] ++ (if cfg.style ≠ "none" then ["\\hline\n"] else [])
        else [])
    ++ (rowPieces cfg rng cfg.rows).1
    ++ (if cfg.style = "full" then ["\\hline\n"] else [])
    ++ ["\\end\x7btabular\x7d"]

/-- The sequence of chunks the source appends to latexPreview, in order. -/
def previewPieces (cfg : TableConfig) (rng : Nat → Nat) : List String :=
  ["\\begin\x7barray\x7d\x7b", stylePiece cfg.style cfg.autoNumber (totalPreviewColumns cfg)]
    ++ (if cfg.hasHeader then
          [headerPieceP cfg] ++ (if cfg.style ≠ "none" then ["\\hline\n"] else [])
        else [])
    ++ (rowPieces cfg rng cfg.rows).2
    ++ (if cfg.style = "full" then ["\\hline\n"] else [])
    ++ ["\\end\x7barray\x7d"]

/-- Concatenation of a chunk list, the result of the += accumulation. -/
def strJoin : List String → String
  | [] => ""
  | s :: rest => s ++ strJoin rest

/-- The full latexOutput string of one generation run. -/
def latexOutput (cfg : TableConfig) (rng : Nat → Nat) : String :=
  strJoin (fullPieces cfg rng)

/-- The latexPreview string of one generation run. -/
def latexPreview (cfg : TableConfig) (rng : Nat → Nat) : String :=
  strJoin (previewPieces cfg rng)

/-- The pair of generated markup strings of one run. -/
def generateTable (cfg : TableConfig) (rng : Nat → Nat) : String × String :=
  (latexOutput cfg rng, latexPreview cfg rng)

/-- Longest leading run of decimal digits of a character list, as a
number; none when there is no leading digit, the NaN result of parseInt. -/
def digitsVal (l : List Char) : Option Nat :=
  let ds := l.takeWhile (fun c => c.isDigit)
  if ds.isEmpty then none
  else some (ds.foldl (fun acc c => acc * 10 + (c.toNat - 48)) 0)

/-- Models the JavaScript parseInt conversion on the decimal inputs the
form can hold: leading whitespace is skipped, an optional sign is read,
and the longest leading digit run is taken; the result is NaN, here none,
when no digit follows. -/
def parseIntJS (s : String) : Option Int :=
  match s.data.dropWhile (fun c => c.isWhitespace) with
  | '-' :: rest => (digitsVal rest).map (fun n => -(n : Int))
  | '+' :: rest => (digitsVal rest).map (fun n => (n : Int))
  | rest => (digitsVal rest).map (fun n => (n : Int))

/-- The raw form field values read inside the click handler. -/
structure FormState where
  rows : String
  columns : String
  style : String
  header : Bool
  autoNumber : Bool
  fontStyle : String
  isNumeric : Bool

/-- Embedding of the generateBtn click handler as a function on the
previously displayed output string: rows and columns are parsed with
parseInt, and when either is NaN or nonpositive the handler alerts and
returns, leaving the displayed output unchanged; otherwise the output
field receives the freshly generated latexOutput. -/
def clickGenerate (f : FormState) (rng : Nat → Nat) (prev : String) : String :=
  match parseIntJS f.rows, parseIntJS f.columns with
  | some r, some c =>
    if r ≤ 0 ∨ c ≤ 0 then prev
    else latexOutput ⟨r.toNat, c.toNat, f.style, f.header, f.autoNumber, f.fontStyle, f.isNumeric⟩ rng
  | some _, none => prev
  | none, _ => prev

/-- A constant random stream, for concrete evaluations. -/
def rngZero : Nat → Nat := fun _ => 0

/-- A small non-numeric configuration used in concrete instances. -/
def cfgA : TableConfig := ⟨1, 1, "none", false, false, "normal", false⟩

/-- A numeric one-by-one configuration used in concrete instances. -/
def cfgNum : TableConfig := ⟨1, 1, "none", false, false, "normal", true⟩

/-- Number of positions at which pat occurs as a contiguous block of l,
counting every starting position. -/
def countOcc (pat : List Char) : List Char → Nat
  | [] => 0
  | c :: rest => (if pat <+: c :: rest then 1 else 0) + countOcc pat rest

/-- No strict leading part of pat ends the list a, so no occurrence of pat
can straddle the right end of a. -/
def tailSafeL (pat a : List Char) : Prop :=
  ∀ k < pat.length, 0 < k → ¬ (pat.take k <:+ a)

/-- No strict trailing part of pat starts the list b, so no occurrence of
pat can straddle the left end of b. -/
def headSafeR (pat b : List Char) : Prop :=
  ∀ k < pat.length, 0 < k → ¬ (pat.drop k <+: b)

instance (pat a : List Char) : Decidable (tailSafeL pat a) := by
  unfold tailSafeL; infer_instance

instance (pat b : List Char) : Decidable (headSafeR pat b) := by
  unfold headSafeR; infer_instance

/-- Every character that can occur in a styled cell text: the textbf
wrapper, the placeholder and header labels, the row number header label,
digits, the decimal point and the space. -/
def CELLCHARS : List Char :=
  "\\textbf\x7b\x7dKolumnaNagłówekNumer wiersza0123456789. ".data

/-- Characters of a row body: cell characters plus the ampersand of the
cell separator. -/
def ROWCHARS : List Char := '&' :: CELLCHARS

/-- Characters of a full row chunk: row body characters plus the newline
of the row end marker. -/
def PIECECHARS : List Char := '\n' :: ROWCHARS

/-- Characters of the head part of a column specification chunk. -/
def HEADCH : List Char := "c| ".data

/-- The row end marker, a space, double backslash and newline. -/
def rowEndMark : List Char := " \\\\\n".data

/-- The horizontal rule chunk characters. -/
def hlineMark : List Char := "\\hline\n".data

/-- The opening directive of the preview markup. -/
def beginArrMark : List Char := "\\begin\x7barray\x7d".data

/-- The closing directive of the preview markup. -/
def endArrMark : List Char := "\\end\x7barray\x7d".data

/-- The newline condition on a pattern under which every chunk ending in a
newline is safe on the left of a split. -/
def nlSafe (pat : List Char) : Prop :=
  ∀ k < pat.length, 0 < k → (pat.take k).getLast? ≠ some '\n'

instance (pat : List Char) : Decidable (nlSafe pat) := by
  unfold nlSafe; infer_instance

/-- The styled text of data cell i j, as shared by rowOutput and
rowPreview: the source computes the cell value once and appends the same
styled text to both strings. -/
def styledCell (cfg : TableConfig) (rng : Nat → Nat) (i j : Nat) : String :=
  applyFontStyle (cellText cfg rng i j) cfg.fontStyle

/-- The optional automatic row number cell prefix of row i. -/
def rowBase (cfg : TableConfig) (i : Nat) : String :=
  if cfg.autoNumber then applyFontStyle (natToString i) cfg.fontStyle ++ " & " else ""

/-- Character data of a concatenation. -/
theorem strData_append (a b : String) : (a ++ b).data = a.data ++ b.data := rfl

theorem prefix_append_iff_of_le {pat l b : List Char} (h : pat.length ≤ l.length) :
    pat <+: l ++ b ↔ pat <+: l := by
  constructor
  · intro hp
    have h1 : pat = (l ++ b).take pat.length := List.prefix_iff_eq_take.mp hp
    have h2 : pat = l.take pat.length := by
      conv_lhs => rw [h1]
      rw [List.take_append_of_le_length h]
    exact List.prefix_iff_eq_take.mpr h2
  · intro hp
    exact hp.trans (List.prefix_append l b)

theorem split_of_prefix_append {pat l b : List Char} (h : pat <+: l ++ b)
    (hl : l.length ≤ pat.length) : l <+: pat ∧ pat.drop l.length <+: b := by
  have h1 : l <+: pat := List.prefix_of_prefix_length_le (List.prefix_append l b) h hl
  obtain ⟨t, ht⟩ := h1
  have hdrop : pat.drop l.length = t := by rw [← ht, List.drop_left]
  obtain ⟨u, hu⟩ := h
  rw [← ht, List.append_assoc] at hu
  have := List.append_cancel_left hu
  refine ⟨⟨t, ht⟩, ?_⟩
  rw [hdrop]
  exact ⟨u, this⟩

/-- Splitting rule for occurrence counts when no occurrence can straddle
the boundary, stated with the condition on the left part. -/
theorem countOcc_append_left (pat : List Char) :
    ∀ a b : List Char, tailSafeL pat a →
      countOcc pat (a ++ b) = countOcc pat a + countOcc pat b := by
  intro a
  induction a with
  | nil => intro b _; simp [countOcc]
  | cons c a' ih =>
    intro b hsafe
    have hsafe' : tailSafeL pat a' := by
      intro k hk hk0 hsuf
      exact hsafe k hk hk0 (hsuf.trans ⟨[c], rfl⟩)
    show countOcc pat (c :: (a' ++ b)) = countOcc pat (c :: a') + countOcc pat b
    simp only [countOcc]
    rw [ih b hsafe']
    have hiff : (pat <+: c :: (a' ++ b)) ↔ (pat <+: c :: a') := by
      by_cases hlen : pat.length ≤ (c :: a').length
      · exact prefix_append_iff_of_le hlen
      · push_neg at hlen
        constructor
        · intro hp
          obtain ⟨h1, _⟩ := split_of_prefix_append (l := c :: a') hp (le_of_lt hlen)
          have htake : pat.take (c :: a').length = c :: a' :=
            (List.prefix_iff_eq_take.mp h1).symm
          refine absurd ?_ (hsafe (c :: a').length hlen (by simp))
          rw [htake]
        · intro hp
          exact absurd hp.length_le (by omega)
    rw [if_congr hiff rfl rfl]
    omega

/-- Splitting rule for occurrence counts when no occurrence can straddle
the boundary, stated with the condition on the right part. -/
theorem countOcc_append_right (pat : List Char) :
    ∀ a b : List Char, headSafeR pat b →
      countOcc pat (a ++ b) = countOcc pat a + countOcc pat b := by
  intro a
  induction a with
  | nil => intro b _; simp [countOcc]
  | cons c a' ih =>
    intro b hsafe
    show countOcc pat (c :: (a' ++ b)) = countOcc pat (c :: a') + countOcc pat b
    simp only [countOcc]
    rw [ih b hsafe]
    have hiff : (pat <+: c :: (a' ++ b)) ↔ (pat <+: c :: a') := by
      by_cases hlen : pat.length ≤ (c :: a').length
      · exact prefix_append_iff_of_le hlen
      · push_neg at hlen
        constructor
        · intro hp
          obtain ⟨_, h2⟩ := split_of_prefix_append (l := c :: a') hp (le_of_lt hlen)
          exact absurd h2 (hsafe (c :: a').length hlen (by simp))
        · intro hp
          exact absurd hp.length_le (by omega)
    rw [if_congr hiff rfl rfl]
    omega

/-- A pattern containing a character that the list lacks never occurs. -/
theorem countOcc_eq_zero_of_not_mem (pat : List Char) {l : List Char} {c : Char}
    (hc : c ∈ pat) (hl : c ∉ l) : countOcc pat l = 0 := by
  induction l with
  | nil => rfl
  | cons d rest ih =>
    have hneg : ¬ (pat <+: d :: rest) := fun hp => hl (hp.subset hc)
    have hl' : c ∉ rest := fun h => hl (List.mem_cons_of_mem d h)
    simp only [countOcc, if_neg hneg, ih hl', Nat.zero_add]

/-- A list ending in a character that no strict leading part of the
pattern ends in is safe on the left of a split. -/
theorem tailSafeL_of_getLast (pat a : List Char) (ch : Char)
    (hlast : a.getLast? = some ch)
    (h : ∀ k < pat.length, 0 < k → (pat.take k).getLast? ≠ some ch) :
    tailSafeL pat a := by
  intro k hk hk0 hsuf
  obtain ⟨t, ht⟩ := hsuf
  have hne : pat.take k ≠ [] := by
    have hlen : (pat.take k).length = k := by
      simp [List.length_take, Nat.min_eq_left (le_of_lt hk)]
    intro hnil
    rw [hnil] at hlen
    simp at hlen
    omega
  have heq := List.getLast?_append_of_ne_nil t hne
  rw [ht] at heq
  rw [heq] at hlast
  exact h k hk hk0 hlast

/-- Occurrence count of a concatenated chunk list is the sum of per-chunk
counts, when every chunk is safe on the left of its split. -/
theorem countOcc_strJoin (pat : List Char) :
    ∀ ps : List String, (∀ p ∈ ps, tailSafeL pat p.data) →
      countOcc pat (strJoin ps).data = (ps.map (fun p => countOcc pat p.data)).sum := by
  intro ps
  induction ps with
  | nil => intro _; rfl
  | cons p rest ih =>
    intro h
    have hd : (strJoin (p :: rest)).data = p.data ++ (strJoin rest).data := rfl
    rw [hd, countOcc_append_left pat p.data _ (h p (List.mem_cons_self p rest)),
      ih (fun q hq => h q (List.mem_cons_of_mem p hq))]
    simp

theorem digitChar_mem (d : Nat) : digitChar d ∈ CELLCHARS := by
  unfold digitChar
  split_ifs <;> decide

theorem natToStringAux_chars :
    ∀ fuel n : Nat, ∀ c ∈ natToStringAux fuel n, c ∈ CELLCHARS := by
  intro fuel
  induction fuel with
  | zero => intro n c hc; simp [natToStringAux] at hc
  | succ fuel ih =>
    intro n c hc
    simp only [natToStringAux] at hc
    by_cases h : n < 10
    · rw [if_pos h] at hc
      simp at hc
      rw [hc]
      exact digitChar_mem n
    · rw [if_neg h] at hc
      rcases List.mem_append.mp hc with h1 | h2
      · exact ih _ c h1
      · simp at h2
        rw [h2]
        exact digitChar_mem _

theorem natToString_chars (n : Nat) : ∀ c ∈ (natToString n).data, c ∈ CELLCHARS :=
  fun c hc => natToStringAux_chars _ n c hc

theorem stripZeros_chars (l : List Char) : ∀ c ∈ stripZeros l, c ∈ l := by
  intro c hc
  unfold stripZeros at hc
  rw [List.mem_reverse] at hc
  have := (List.dropWhile_sublist (fun c => c = '0')).subset hc
  rwa [List.mem_reverse] at this

theorem padFour_chars (m : Nat) : ∀ c ∈ padFour m, c ∈ CELLCHARS := by
  intro c hc
  unfold padFour at hc
  simp only [List.mem_cons, List.mem_singleton] at hc
  rcases hc with h | h | h | h | h
  all_goals first
    | (rw [h]; exact digitChar_mem _)
    | exact absurd h (by simp)

theorem fixedText_chars (n : Nat) : ∀ c ∈ (fixedText n).data, c ∈ CELLCHARS := by
  intro c hc
  unfold fixedText at hc
  by_cases h : n % 10000 = 0
  · rw [if_pos h] at hc
    exact natToString_chars _ c hc
  · rw [if_neg h] at hc
    rw [strData_append, strData_append] at hc
    rcases List.mem_append.mp hc with h1 | h2
    · rcases List.mem_append.mp h1 with h3 | h4
      · exact natToString_chars _ c h3
      · simp at h4
        rw [h4]
        decide
    · exact padFour_chars _ c (stripZeros_chars _ c h2)

theorem applyFontStyle_chars (t fs : String) (ht : ∀ c ∈ t.data, c ∈ CELLCHARS) :
    ∀ c ∈ (applyFontStyle t fs).data, c ∈ CELLCHARS := by
  intro c hc
  unfold applyFontStyle at hc
  by_cases h : fs = "bold"
  · rw [if_pos h] at hc
    rw [strData_append, strData_append] at hc
    rcases List.mem_append.mp hc with h1 | h2
    · rcases List.mem_append.mp h1 with h3 | h4
      · exact (by decide : ∀ x ∈ "\\textbf\x7b".data, x ∈ CELLCHARS) c h3
      · exact ht c h4
    · exact (by decide : ∀ x ∈ "\x7d".data, x ∈ CELLCHARS) c h2
  · rw [if_neg h] at hc
    exact ht c hc

theorem cellText_chars (cfg : TableConfig) (rng : Nat → Nat) (i j : Nat) :
    ∀ c ∈ (cellText cfg rng i j).data, c ∈ CELLCHARS := by
  intro c hc
  unfold cellText at hc
  by_cases h : cfg.isNumeric
  · rw [if_pos h] at hc
    exact fixedText_chars _ c hc
  · rw [if_neg h] at hc
    rw [strData_append] at hc
    rcases List.mem_append.mp hc with h1 | h2
    · exact (by decide : ∀ x ∈ "Kolumna".data, x ∈ CELLCHARS) c h1
    · exact natToString_chars _ c h2

theorem rowLoop_chars (cols pCols : Nat) (f : Nat → String)
    (hf : ∀ j : Nat, ∀ c ∈ (f j).data, c ∈ CELLCHARS) :
    ∀ k : Nat, (∀ c ∈ ((rowLoop cols pCols f k).1).data, c ∈ ROWCHARS)
      ∧ (∀ c ∈ ((rowLoop cols pCols f k).2).data, c ∈ ROWCHARS) := by
  intro k
  induction k with
  | zero => simp [rowLoop]
  | succ k ih =>
    simp only [rowLoop]
    constructor
    · intro c hc
      rw [strData_append, strData_append] at hc
      rcases List.mem_append.mp hc with h1 | h2
      · rcases List.mem_append.mp h1 with h3 | h4
        · exact List.mem_cons_of_mem _ (hf _ c h3)
        · by_cases hb : cols - (k + 1) < cols - 1
          · rw [if_pos hb] at h4
            exact (by decide : ∀ x ∈ " & ".data, x ∈ ROWCHARS) c h4
          · rw [if_neg hb] at h4
            exact absurd h4 (by simp)
      · exact ih.1 c h2
    · intro c hc
      by_cases hp : cols - (k + 1) < pCols
      · rw [if_pos hp] at hc
        rw [strData_append, strData_append] at hc
        rcases List.mem_append.mp hc with h1 | h2
        · rcases List.mem_append.mp h1 with h3 | h4
          · exact List.mem_cons_of_mem _ (hf _ c h3)
          · by_cases hb : cols - (k + 1) < pCols - 1
            · rw [if_pos hb] at h4
              exact (by decide : ∀ x ∈ " & ".data, x ∈ ROWCHARS) c h4
            · rw [if_neg hb] at h4
              exact absurd h4 (by simp)
        · exact ih.2 c h2
      · rw [if_neg hp] at hc
        exact ih.2 c hc

theorem rowBodies_chars (cfg : TableConfig) (rng : Nat → Nat) (i : Nat) :
    (∀ c ∈ ((rowBodies cfg rng i).1).data, c ∈ ROWCHARS)
      ∧ (∀ c ∈ ((rowBodies cfg rng i).2).data, c ∈ ROWCHARS) := by
  have hbase : ∀ c ∈ (if cfg.autoNumber then
      applyFontStyle (natToString i) cfg.fontStyle ++ " & " else "").data, c ∈ ROWCHARS := by
    intro c hc
    by_cases ha : cfg.autoNumber
    · rw [if_pos ha, strData_append] at hc
      rcases List.mem_append.mp hc with h1 | h2
      · exact List.mem_cons_of_mem _
          (applyFontStyle_chars _ _ (natToString_chars i) c h1)
      · exact (by decide : ∀ x ∈ " & ".data, x ∈ ROWCHARS) c h2
    · rw [if_neg ha] at hc
      exact absurd hc (by simp)
  have hf : ∀ j : Nat, ∀ c ∈ (applyFontStyle (cellText cfg rng i j) cfg.fontStyle).data,
      c ∈ CELLCHARS :=
    fun j => applyFontStyle_chars _ _ (cellText_chars cfg rng i j)
  have hLoop := rowLoop_chars cfg.columns (min cfg.columns 5) _ hf cfg.columns
  constructor
  · intro c hc
    rw [show (rowBodies cfg rng i).1
        = (if cfg.autoNumber then applyFontStyle (natToString i) cfg.fontStyle ++ " & " else "")
          ++ (rowLoop cfg.columns (min cfg.columns 5)
              (fun j => applyFontStyle (cellText cfg rng i j) cfg.fontStyle) cfg.columns).1
        from rfl, strData_append] at hc
    rcases List.mem_append.mp hc with h1 | h2
    · exact hbase c h1
    · exact hLoop.1 c h2
  · intro c hc
    rw [show (rowBodies cfg rng i).2
        = (if cfg.autoNumber then applyFontStyle (natToString i) cfg.fontStyle ++ " & " else "")
          ++ (rowLoop cfg.columns (min cfg.columns 5)
              (fun j => applyFontStyle (cellText cfg rng i j) cfg.fontStyle) cfg.columns).2
        from rfl, strData_append] at hc
    rcases List.mem_append.mp hc with h1 | h2
    · exact hbase c h1
    · exact hLoop.2 c h2

theorem joinSep_chars (cells : List String)
    (h : ∀ s ∈ cells, ∀ c ∈ s.data, c ∈ CELLCHARS) :
    ∀ c ∈ (joinSep " & " cells).data, c ∈ ROWCHARS := by
  induction cells with
  | nil => intro c hc; exact absurd hc (by simp [joinSep])
  | cons s rest ih =>
    intro c hc
    cases rest with
    | nil =>
      exact List.mem_cons_of_mem _ (h s (by simp) c hc)
    | cons s' rest' =>
      rw [show joinSep " & " (s :: s' :: rest') = s ++ " & " ++ joinSep " & " (s' :: rest')
          from rfl, strData_append, strData_append] at hc
      rcases List.mem_append.mp hc with h1 | h2
      · rcases List.mem_append.mp h1 with h3 | h4
        · exact List.mem_cons_of_mem _ (h s (by simp) c h3)
        · exact (by decide : ∀ x ∈ " & ".data, x ∈ ROWCHARS) c h4
      · exact ih (fun t ht => h t (List.mem_cons_of_mem s ht)) c h2

theorem headerCells_chars (cfg : TableConfig) (n : Nat) :
    ∀ s ∈ headerCells cfg n, ∀ c ∈ s.data, c ∈ CELLCHARS := by
  intro s hs c hc
  unfold headerCells at hs
  obtain ⟨i, _, hi⟩ := List.mem_map.mp hs
  rw [← hi] at hc
  refine applyFontStyle_chars _ _ ?_ c hc
  intro x hx
  rw [strData_append] at hx
  rcases List.mem_append.mp hx with h1 | h2
  · exact (by decide : ∀ y ∈ "Nagłówek ".data, y ∈ CELLCHARS) x h1
  · exact natToString_chars _ x h2

theorem headerPieceOut_chars (cfg : TableConfig) :
    ∀ c ∈ (headerPieceOut cfg).data, c ∈ PIECECHARS := by
  intro c hc
  unfold headerPieceOut at hc
  rw [strData_append, strData_append] at hc
  rcases List.mem_append.mp hc with h1 | h2
  · rcases List.mem_append.mp h1 with h3 | h4
    · by_cases ha : cfg.autoNumber
      · rw [if_pos ha, strData_append] at h3
        rcases List.mem_append.mp h3 with h5 | h6
        · refine List.mem_cons_of_mem _ (List.mem_cons_of_mem _ ?_)
          refine applyFontStyle_chars _ _ ?_ c h5
          exact (by decide : ∀ y ∈ "Numer wiersza".data, y ∈ CELLCHARS)
        · exact (by decide : ∀ x ∈ " & ".data, x ∈ PIECECHARS) c h6
      · rw [if_neg ha] at h3
        exact absurd h3 (by simp)
    · exact List.mem_cons_of_mem _ (joinSep_chars _ (headerCells_chars cfg _) c h4)
  · exact (by decide : ∀ x ∈ " \\\\\n".data, x ∈ PIECECHARS) c h2

theorem headerPieceP_chars (cfg : TableConfig) :
    ∀ c ∈ (headerPieceP cfg).data, c ∈ PIECECHARS := by
  intro c hc
  unfold headerPieceP at hc
  rw [strData_append, strData_append] at hc
  rcases List.mem_append.mp hc with h1 | h2
  · rcases List.mem_append.mp h1 with h3 | h4
    · by_cases ha : cfg.autoNumber
      · rw [if_pos ha, strData_append] at h3
        rcases List.mem_append.mp h3 with h5 | h6
        · refine List.mem_cons_of_mem _ (List.mem_cons_of_mem _ ?_)
          refine applyFontStyle_chars _ _ ?_ c h5
          exact (by decide : ∀ y ∈ "Numer wiersza".data, y ∈ CELLCHARS)
        · exact (by decide : ∀ x ∈ " & ".data, x ∈ PIECECHARS) c h6
      · rw [if_neg ha] at h3
        exact absurd h3 (by simp)
    · exact List.mem_cons_of_mem _ (joinSep_chars _ (headerCells_chars cfg _) c h4)
  · exact (by decide : ∀ x ∈ " \\\\\n".data, x ∈ PIECECHARS) c h2

theorem srep_chars (s : String) (n : Nat) : ∀ c ∈ (srep s n).data, c ∈ s.data := by
  induction n with
  | zero => intro c hc; exact absurd hc (by simp [srep])
  | succ n ih =>
    intro c hc
    rw [show srep s (n + 1) = s ++ srep s n from rfl, strData_append] at hc
    rcases List.mem_append.mp hc with h1 | h2
    · exact h1
    · exact ih c h2

theorem rowPieceOut_last (cfg : TableConfig) (rng : Nat → Nat) (i : Nat) :
    (rowPieceOut cfg rng i).data.getLast? = some '\n' := by
  unfold rowPieceOut
  rw [strData_append, List.getLast?_append_of_ne_nil _ (by decide)]
  decide

theorem rowPieceP_last (cfg : TableConfig) (rng : Nat → Nat) (i : Nat) :
    (rowPieceP cfg rng i).data.getLast? = some '\n' := by
  unfold rowPieceP
  rw [strData_append, List.getLast?_append_of_ne_nil _ (by decide)]
  decide

theorem headerPieceOut_last (cfg : TableConfig) :
    (headerPieceOut cfg).data.getLast? = some '\n' := by
  unfold headerPieceOut
  rw [strData_append, List.getLast?_append_of_ne_nil _ (by decide)]
  decide

theorem headerPieceP_last (cfg : TableConfig) :
    (headerPieceP cfg).data.getLast? = some '\n' := by
  unfold headerPieceP
  rw [strData_append, List.getLast?_append_of_ne_nil _ (by decide)]
  decide

theorem stylePiece_last (s : String) (b : Bool) (n : Nat) :
    (stylePiece s b n).data.getLast? = some '\n' := by
  unfold stylePiece
  split_ifs <;>
    (rw [strData_append, List.getLast?_append_of_ne_nil _ (by decide)]; decide)

/-- Membership in a conditional chunk list with empty alternative. -/
theorem mem_ite_nil {c : Prop} [Decidable c] {l : List String} {p : String}
    (hp : p ∈ (if c then l else [])) : p ∈ l := by
  split at hp
  · exact hp
  · exact absurd hp (by simp)

/-- Membership characterization of the chunks produced by the row loop for
the full output. -/
theorem rowPieces_mem_out (cfg : TableConfig) (rng : Nat → Nat) :
    ∀ k p, p ∈ (rowPieces cfg rng k).1 →
      (∃ i, p = rowPieceOut cfg rng i) ∨ p = "\\hline\n" := by
  intro k
  induction k with
  | zero => intro p hp; exact absurd hp (by simp [rowPieces])
  | succ k ih =>
    intro p hp
    simp only [rowPieces, List.mem_append, List.mem_singleton] at hp
    rcases hp with ((h1 | h2) | h3) | h4
    · exact Or.inl ⟨cfg.rows - k, h1⟩
    · by_cases hc : cfg.style = "horizontal" ∧ cfg.rows - k < cfg.rows
      · rw [if_pos hc] at h2
        simp at h2
        exact Or.inr h2
      · rw [if_neg hc] at h2
        exact absurd h2 (by simp)
    · by_cases hc : cfg.style = "full" ∧ cfg.rows - k < cfg.rows
      · rw [if_pos hc] at h3
        simp at h3
        exact Or.inr h3
      · rw [if_neg hc] at h3
        exact absurd h3 (by simp)
    · exact ih p h4

/-- Membership characterization of the chunks produced by the row loop for
the preview output. -/
theorem rowPieces_mem_p (cfg : TableConfig) (rng : Nat → Nat) :
    ∀ k p, p ∈ (rowPieces cfg rng k).2 →
      (∃ i, p = rowPieceP cfg rng i) ∨ p = "\\hline\n" := by
  intro k
  induction k with
  | zero => intro p hp; exact absurd hp (by simp [rowPieces])
  | succ k ih =>
    intro p hp
    simp only [rowPieces, List.mem_append] at hp
    rcases hp with ((h1 | h2) | h3) | h4
    · by_cases hc : cfg.rows - k ≤ min cfg.rows 5
      · rw [if_pos hc] at h1
        simp at h1
        exact Or.inl ⟨cfg.rows - k, h1⟩
      · rw [if_neg hc] at h1
        exact absurd h1 (by simp)
    · by_cases hc : cfg.style = "horizontal" ∧ cfg.rows - k < cfg.rows ∧ cfg.rows - k < min cfg.rows 5
      · rw [if_pos hc] at h2
        simp at h2
        exact Or.inr h2
      · rw [if_neg hc] at h2
        exact absurd h2 (by simp)
    · by_cases hc : cfg.style = "full" ∧ cfg.rows - k < cfg.rows ∧ cfg.rows - k < min cfg.rows 5
      · rw [if_pos hc] at h3
        simp at h3
        exact Or.inr h3
      · rw [if_neg hc] at h3
        exact absurd h3 (by simp)
    · exact ih p h4

/-- Case analysis on the chunks of the full output. -/
theorem fullPieces_cases (cfg : TableConfig) (rng : Nat → Nat) (p : String)
    (hp : p ∈ fullPieces cfg rng) :
    p = "\\begin\x7btabular\x7d\x7b"
    ∨ p = stylePiece cfg.style cfg.autoNumber (totalColumns cfg)
    ∨ p = headerPieceOut cfg
    ∨ p = "\\hline\n"
    ∨ (∃ i, p = rowPieceOut cfg rng i)
    ∨ p = "\\end\x7btabular\x7d" := by
  unfold fullPieces at hp
  rcases List.mem_append.mp hp with h | he
  · rcases List.mem_append.mp h with h | hf
    · rcases List.mem_append.mp h with h | hr
      · rcases List.mem_append.mp h with hbs | hH
        · rcases List.mem_cons.mp hbs with h1 | h2
          · exact Or.inl h1
          · simp at h2
            exact Or.inr (Or.inl h2)
        · rcases List.mem_append.mp (mem_ite_nil hH) with h1 | h2
          · simp at h1
            exact Or.inr (Or.inr (Or.inl h1))
          · have := mem_ite_nil h2
            simp at this
            exact Or.inr (Or.inr (Or.inr (Or.inl this)))
      · rcases rowPieces_mem_out cfg rng _ p hr with ⟨i, hi⟩ | hhl
        · exact Or.inr (Or.inr (Or.inr (Or.inr (Or.inl ⟨i, hi⟩))))
        · exact Or.inr (Or.inr (Or.inr (Or.inl hhl)))
    · have := mem_ite_nil hf
      simp at this
      exact Or.inr (Or.inr (Or.inr (Or.inl this)))
  · simp at he
    exact Or.inr (Or.inr (Or.inr (Or.inr (Or.inr he))))

/-- Case analysis on the chunks of the preview output. -/
theorem previewPieces_cases (cfg : TableConfig) (rng : Nat → Nat) (p : String)
    (hp : p ∈ previewPieces cfg rng) :
    p = "\\begin\x7barray\x7d\x7b"
    ∨ p = stylePiece cfg.style cfg.autoNumber (totalPreviewColumns cfg)
    ∨ p = headerPieceP cfg
    ∨ p = "\\hline\n"
    ∨ (∃ i, p = rowPieceP cfg rng i)
    ∨ p = "\\end\x7barray\x7d" := by
  unfold previewPieces at hp
  rcases List.mem_append.mp hp with h | he
  · rcases List.mem_append.mp h with h | hf
    · rcases List.mem_append.mp h with h | hr
      · rcases List.mem_append.mp h with hbs | hH
        · rcases List.mem_cons.mp hbs with h1 | h2
          · exact Or.inl h1
          · simp at h2
            exact Or.inr (Or.inl h2)
        · rcases List.mem_append.mp (mem_ite_nil hH) with h1 | h2
          · simp at h1
            exact Or.inr (Or.inr (Or.inl h1))
          · have := mem_ite_nil h2
            simp at this
            exact Or.inr (Or.inr (Or.inr (Or.inl this)))
      · rcases rowPieces_mem_p cfg rng _ p hr with ⟨i, hi⟩ | hhl
        · exact Or.inr (Or.inr (Or.inr (Or.inr (Or.inl ⟨i, hi⟩))))
        · exact Or.inr (Or.inr (Or.inr (Or.inl hhl)))
    · have := mem_ite_nil hf
      simp at this
      exact Or.inr (Or.inr (Or.inr (Or.inl this)))
  · simp at he
    exact Or.inr (Or.inr (Or.inr (Or.inr (Or.inr he))))

theorem fullPieces_tailSafe (cfg : TableConfig) (rng : Nat → Nat) (pat : List Char)
    (hnl : nlSafe pat)
    (hbeg : tailSafeL pat "\\begin\x7btabular\x7d\x7b".data)
    (hend : tailSafeL pat "\\end\x7btabular\x7d".data) :
    ∀ p ∈ fullPieces cfg rng, tailSafeL pat p.data := by
  intro p hp
  rcases fullPieces_cases cfg rng p hp with h | h | h | h | ⟨i, h⟩ | h
  · rw [h]; exact hbeg
  · rw [h]; exact tailSafeL_of_getLast pat _ '\n' (stylePiece_last _ _ _) hnl
  · rw [h]; exact tailSafeL_of_getLast pat _ '\n' (headerPieceOut_last cfg) hnl
  · rw [h]; exact tailSafeL_of_getLast pat _ '\n' (by decide) hnl
  · rw [h]; exact tailSafeL_of_getLast pat _ '\n' (rowPieceOut_last cfg rng i) hnl
  · rw [h]; exact hend

theorem previewPieces_tailSafe (cfg : TableConfig) (rng : Nat → Nat) (pat : List Char)
    (hnl : nlSafe pat)
    (hbeg : tailSafeL pat "\\begin\x7barray\x7d\x7b".data)
    (hend : tailSafeL pat "\\end\x7barray\x7d".data) :
    ∀ p ∈ previewPieces cfg rng, tailSafeL pat p.data := by
  intro p hp
  rcases previewPieces_cases cfg rng p hp with h | h | h | h | ⟨i, h⟩ | h
  · rw [h]; exact hbeg
  · rw [h]; exact tailSafeL_of_getLast pat _ '\n' (stylePiece_last _ _ _) hnl
  · rw [h]; exact tailSafeL_of_getLast pat _ '\n' (headerPieceP_last cfg) hnl
  · rw [h]; exact tailSafeL_of_getLast pat _ '\n' (by decide) hnl
  · rw [h]; exact tailSafeL_of_getLast pat _ '\n' (rowPieceP_last cfg rng i) hnl
  · rw [h]; exact hend

theorem countOcc_rowPieceOut (pat : List Char) (cfg : TableConfig) (rng : Nat → Nat) (i : Nat)
    (hhead : headSafeR pat rowEndMark)
    (hzero : ∃ c ∈ pat, c ∉ ROWCHARS) :
    countOcc pat (rowPieceOut cfg rng i).data = countOcc pat rowEndMark := by
  unfold rowPieceOut
  rw [strData_append, show (" \\\\\n" : String).data = rowEndMark from rfl,
    countOcc_append_right pat _ _ hhead]
  obtain ⟨c, hc1, hc2⟩ := hzero
  rw [countOcc_eq_zero_of_not_mem pat hc1
    (fun hm => hc2 ((rowBodies_chars cfg rng i).1 c hm))]
  omega

theorem countOcc_rowPieceP (pat : List Char) (cfg : TableConfig) (rng : Nat → Nat) (i : Nat)
    (hhead : headSafeR pat rowEndMark)
    (hzero : ∃ c ∈ pat, c ∉ ROWCHARS) :
    countOcc pat (rowPieceP cfg rng i).data = countOcc pat rowEndMark := by
  unfold rowPieceP
  rw [strData_append, show (" \\\\\n" : String).data = rowEndMark from rfl,
    countOcc_append_right pat _ _ hhead]
  obtain ⟨c, hc1, hc2⟩ := hzero
  rw [countOcc_eq_zero_of_not_mem pat hc1
    (fun hm => hc2 ((rowBodies_chars cfg rng i).2 c hm))]
  omega

theorem countOcc_headerPieceOut (pat : List Char) (cfg : TableConfig)
    (hhead : headSafeR pat rowEndMark)
    (hzero : ∃ c ∈ pat, c ∉ ROWCHARS) :
    countOcc pat (headerPieceOut cfg).data = countOcc pat rowEndMark := by
  unfold headerPieceOut
  rw [strData_append, show (" \\\\\n" : String).data = rowEndMark from rfl,
    countOcc_append_right pat _ _ hhead]
  obtain ⟨c, hc1, hc2⟩ := hzero
  have hz : countOcc pat ((if cfg.autoNumber
      then applyFontStyle "Numer wiersza" cfg.fontStyle ++ " & " else "")
        ++ joinSep " & " (headerCells cfg cfg.columns)).data = 0 := by
    refine countOcc_eq_zero_of_not_mem pat hc1 ?_
    intro hm
    rw [strData_append] at hm
    rcases List.mem_append.mp hm with hm1 | hm2
    · by_cases ha : cfg.autoNumber
      · rw [if_pos ha, strData_append] at hm1
        rcases List.mem_append.mp hm1 with hm3 | hm4
        · exact hc2 (List.mem_cons_of_mem _ (applyFontStyle_chars _ _
            (by decide : ∀ y ∈ "Numer wiersza".data, y ∈ CELLCHARS) c hm3))
        · exact hc2 ((by decide : ∀ x ∈ " & ".data, x ∈ ROWCHARS) c hm4)
      · rw [if_neg ha] at hm1
        exact absurd hm1 (by simp)
    · exact hc2 (joinSep_chars _ (headerCells_chars cfg _) c hm2)
  rw [hz]
  omega

theorem countOcc_headerPieceP (pat : List Char) (cfg : TableConfig)
    (hhead : headSafeR pat rowEndMark)
    (hzero : ∃ c ∈ pat, c ∉ ROWCHARS) :
    countOcc pat (headerPieceP cfg).data = countOcc pat rowEndMark := by
  unfold headerPieceP
  rw [strData_append, show (" \\\\\n" : String).data = rowEndMark from rfl,
    countOcc_append_right pat _ _ hhead]
  obtain ⟨c, hc1, hc2⟩ := hzero
  have hz : countOcc pat ((if cfg.autoNumber
      then applyFontStyle "Numer wiersza" cfg.fontStyle ++ " & " else "")
        ++ joinSep " & " (headerCells cfg (min cfg.columns 5))).data = 0 := by
    refine countOcc_eq_zero_of_not_mem pat hc1 ?_
    intro hm
    rw [strData_append] at hm
    rcases List.mem_append.mp hm with hm1 | hm2
    · by_cases ha : cfg.autoNumber
      · rw [if_pos ha, strData_append] at hm1
        rcases List.mem_append.mp hm1 with hm3 | hm4
        · exact hc2 (List.mem_cons_of_mem _ (applyFontStyle_chars _ _
            (by decide : ∀ y ∈ "Numer wiersza".data, y ∈ CELLCHARS) c hm3))
        · exact hc2 ((by decide : ∀ x ∈ " & ".data, x ∈ ROWCHARS) c hm4)
      · rw [if_neg ha] at hm1
        exact absurd hm1 (by simp)
    · exact hc2 (joinSep_chars _ (headerCells_chars cfg _) c hm2)
  rw [hz]
  omega

theorem countOcc_stylePiece (pat : List Char) (s : String) (b : Bool) (n : Nat)
    (h1 : headSafeR pat "\x7d\n\\hline\n".data)
    (h2 : headSafeR pat "\x7d\n".data)
    (hzero : ∃ c ∈ pat, c ∉ HEADCH) :
    countOcc pat (stylePiece s b n).data
      = if s = "full" then countOcc pat "\x7d\n\\hline\n".data
        else countOcc pat "\x7d\n".data := by
  obtain ⟨c, hc1, hc2⟩ := hzero
  unfold stylePiece
  split_ifs with hf hh hb
  · rw [strData_append, countOcc_append_right pat _ _ h1]
    have hz : countOcc pat ("|" ++ srep "c|" n).data = 0 := by
      refine countOcc_eq_zero_of_not_mem pat hc1 ?_
      intro hm
      rw [strData_append] at hm
      rcases List.mem_append.mp hm with hm1 | hm2
      · exact hc2 ((by decide : ∀ x ∈ "|".data, x ∈ HEADCH) c hm1)
      · exact hc2 ((by decide : ∀ x ∈ "c|".data, x ∈ HEADCH) c (srep_chars _ n c hm2))
    rw [hz]
    omega
  · rw [strData_append, countOcc_append_right pat _ _ h2]
    have hz : countOcc pat ("c|" ++ srep "c " (n - 1)).data = 0 := by
      refine countOcc_eq_zero_of_not_mem pat hc1 ?_
      intro hm
      rw [strData_append] at hm
      rcases List.mem_append.mp hm with hm1 | hm2
      · exact hc2 ((by decide : ∀ x ∈ "c|".data, x ∈ HEADCH) c hm1)
      · exact hc2 ((by decide : ∀ x ∈ "c ".data, x ∈ HEADCH) c (srep_chars _ _ c hm2))
    rw [hz]
    omega
  · rw [strData_append, countOcc_append_right pat _ _ h2]
    have hz : countOcc pat (srep "c " n).data = 0 := by
      refine countOcc_eq_zero_of_not_mem pat hc1 ?_
      intro hm
      exact hc2 ((by decide : ∀ x ∈ "c ".data, x ∈ HEADCH) c (srep_chars _ _ c hm))
    rw [hz]
    omega
  · rw [strData_append, countOcc_append_right pat _ _ h2]
    have hz : countOcc pat (srep "c " n).data = 0 := by
      refine countOcc_eq_zero_of_not_mem pat hc1 ?_
      intro hm
      exact hc2 ((by decide : ∀ x ∈ "c ".data, x ∈ HEADCH) c (srep_chars _ _ c hm))
    rw [hz]
    omega

theorem rowSum_out_one (cfg : TableConfig) (rng : Nat → Nat) (pat : List Char)
    (hR : ∀ i, countOcc pat (rowPieceOut cfg rng i).data = 1)
    (hH : countOcc pat ("\\hline\n" : String).data = 0) :
    ∀ k, (((rowPieces cfg rng k).1).map (fun p => countOcc pat p.data)).sum = k := by
  intro k
  induction k with
  | zero => simp [rowPieces]
  | succ k ih =>
    simp only [rowPieces]
    split_ifs <;>
      simp only [List.map_append, List.sum_append, List.map_cons, List.map_nil,
        List.sum_cons, List.sum_nil, hR, hH, ih] <;> omega

theorem rowSum_out_hline (cfg : TableConfig) (rng : Nat → Nat) (pat : List Char)
    (hR : ∀ i, countOcc pat (rowPieceOut cfg rng i).data = 0)
    (hH : countOcc pat ("\\hline\n" : String).data = 1) :
    ∀ k, k ≤ cfg.rows →
      (((rowPieces cfg rng k).1).map (fun p => countOcc pat p.data)).sum
        = if cfg.style = "horizontal" ∨ cfg.style = "full" then k - 1 else 0 := by
  intro k
  induction k with
  | zero =>
    intro _
    simp [rowPieces]
  | succ k ih =>
    intro hk
    have ihk := ih (by omega)
    simp only [rowPieces]
    by_cases hsh : cfg.style = "horizontal" <;> by_cases hsf : cfg.style = "full"
    · rw [hsh] at hsf
      exact absurd hsf (by decide)
    · have hlt : cfg.rows - k < cfg.rows ↔ 0 < k := by omega
      by_cases hkpos : 0 < k
      · simp only [if_pos (And.intro hsh (hlt.mpr hkpos)),
          if_neg (fun hc : cfg.style = "full" ∧ _ => hsf hc.1),
          if_pos (Or.inl hsh)] at *
        simp only [List.map_append, List.sum_append, List.map_cons, List.map_nil,
          List.sum_cons, List.sum_nil, hR, hH, ihk]
        omega
      · simp only [if_neg (fun hc : cfg.style = "horizontal" ∧ _ => hkpos (hlt.mp hc.2)),
          if_neg (fun hc : cfg.style = "full" ∧ _ => hsf hc.1),
          if_pos (Or.inl hsh)] at *
        simp only [List.map_append, List.sum_append, List.map_cons, List.map_nil,
          List.sum_cons, List.sum_nil, hR, hH, ihk]
        omega
    · have hlt : cfg.rows - k < cfg.rows ↔ 0 < k := by omega
      by_cases hkpos : 0 < k
      · simp only [if_neg (fun hc : cfg.style = "horizontal" ∧ _ => hsh hc.1),
          if_pos (And.intro hsf (hlt.mpr hkpos)),
          if_pos (Or.inr hsf)] at *
        simp only [List.map_append, List.sum_append, List.map_cons, List.map_nil,
          List.sum_cons, List.sum_nil, hR, hH, ihk]
        omega
      · simp only [if_neg (fun hc : cfg.style = "horizontal" ∧ _ => hsh hc.1),
          if_neg (fun hc : cfg.style = "full" ∧ _ => hkpos (hlt.mp hc.2)),
          if_pos (Or.inr hsf)] at *
        simp only [List.map_append, List.sum_append, List.map_cons, List.map_nil,
          List.sum_cons, List.sum_nil, hR, hH, ihk]
        omega
    · simp only [if_neg (fun hc : cfg.style = "horizontal" ∧ _ => hsh hc.1),
        if_neg (fun hc : cfg.style = "full" ∧ _ => hsf hc.1),
        if_neg (fun hc : cfg.style = "horizontal" ∨ cfg.style = "full" =>
          hc.elim hsh hsf)] at *
      simp only [List.map_append, List.sum_append, List.map_cons, List.map_nil,
        List.sum_cons, List.sum_nil, hR, ihk]
      omega

theorem sum_ite_piece (c : Prop) [Decidable c] (x : String) (f : String → Nat) :
    (((if c then [x] else []) : List String).map f).sum = if c then f x else 0 := by
  split_ifs <;> simp

theorem rowSum_p_one (cfg : TableConfig) (rng : Nat → Nat) (pat : List Char)
    (hR : ∀ i, countOcc pat (rowPieceP cfg rng i).data = 1)
    (hH : countOcc pat ("\\hline\n" : String).data = 0) :
    ∀ k, k ≤ cfg.rows →
      (((rowPieces cfg rng k).2).map (fun p => countOcc pat p.data)).sum
        = min cfg.rows 5 - (cfg.rows - k) := by
  intro k
  induction k with
  | zero =>
    intro _
    simp only [rowPieces, List.map_nil, List.sum_nil]
    omega
  | succ k ih =>
    intro hk
    have ihk := ih (by omega)
    simp only [rowPieces, List.map_append, List.sum_append, sum_ite_piece, List.map_cons,
      List.map_nil, List.sum_cons, List.sum_nil, hR, hH, ihk, ite_self]
    split_ifs <;> omega

theorem rowSum_p_hline (cfg : TableConfig) (rng : Nat → Nat) (pat : List Char)
    (hR : ∀ i, countOcc pat (rowPieceP cfg rng i).data = 0)
    (hH : countOcc pat ("\\hline\n" : String).data = 1) :
    ∀ k, k ≤ cfg.rows →
      (((rowPieces cfg rng k).2).map (fun p => countOcc pat p.data)).sum
        = if cfg.style = "horizontal" ∨ cfg.style = "full"
          then min cfg.rows 5 - 1 - (cfg.rows - k) else 0 := by
  intro k
  induction k with
  | zero =>
    intro _
    simp only [rowPieces, List.map_nil, List.sum_nil]
    split_ifs <;> omega
  | succ k ih =>
    intro hk
    have ihk := ih (by omega)
    by_cases hsh : cfg.style = "horizontal" <;> by_cases hsf : cfg.style = "full"
    · rw [hsh] at hsf
      exact absurd hsf (by decide)
    all_goals
      simp [rowPieces, List.map_append, List.sum_append, sum_ite_piece,
        hR, hH, ite_self, hsh, hsf] at ihk ⊢
    all_goals (try split_ifs at ihk ⊢) <;> omega

theorem rowSum_p_zero (cfg : TableConfig) (rng : Nat → Nat) (pat : List Char)
    (hR : ∀ i, countOcc pat (rowPieceP cfg rng i).data = 0)
    (hH : countOcc pat ("\\hline\n" : String).data = 0) :
    ∀ k, (((rowPieces cfg rng k).2).map (fun p => countOcc pat p.data)).sum = 0 := by
  intro k
  induction k with
  | zero => simp [rowPieces]
  | succ k ih =>
    simp only [rowPieces, List.map_append, List.sum_append, sum_ite_piece, List.map_cons,
      List.map_nil, List.sum_cons, List.sum_nil, hR, hH, ih, ite_self]
    try omega

theorem joinSep_cons (sep x : String) (l : List String) :
    joinSep sep (x :: l) = x ++ ((if l.isEmpty then "" else sep) ++ joinSep sep l) := by
  cases l with
  | nil => simp [joinSep]
  | cons y r => simp [joinSep, String.append_assoc]

theorem rowLoop_spec (cols pCols : Nat) (f : Nat → String) (hp : pCols ≤ cols) :
    ∀ k, k ≤ cols →
      (rowLoop cols pCols f k).1
          = joinSep " & " (((List.range cols).map f).drop (cols - k))
        ∧ (rowLoop cols pCols f k).2
          = joinSep " & " (((List.range pCols).map f).drop (cols - k)) := by
  intro k
  induction k with
  | zero =>
    intro _
    constructor
    · rw [show (rowLoop cols pCols f 0).1 = "" from rfl,
        List.drop_eq_nil_of_le (by simp)]
      rfl
    · rw [show (rowLoop cols pCols f 0).2 = "" from rfl,
        List.drop_eq_nil_of_le (by simp; omega)]
      rfl
  | succ k ih =>
    intro hk
    obtain ⟨ih1, ih2⟩ := ih (by omega)
    have hj : cols - k = (cols - (k + 1)) + 1 := by omega
    have hjlt : cols - (k + 1) < cols := by omega
    constructor
    · have hstep : (rowLoop cols pCols f (k + 1)).1
          = f (cols - (k + 1))
            ++ (if cols - (k + 1) < cols - 1 then " & " else "")
            ++ (rowLoop cols pCols f k).1 := rfl
      have hget : (((List.range cols).map f).drop (cols - (k + 1)))
          = f (cols - (k + 1)) :: ((List.range cols).map f).drop (cols - (k + 1) + 1) := by
        rw [List.drop_eq_getElem_cons (by simp [hjlt])]
        simp
      rw [hstep, ih1, hj, hget, joinSep_cons]
      by_cases hc : cols - (k + 1) < cols - 1
      · have hne : ¬ ((((List.range cols).map f).drop (cols - (k + 1) + 1)).isEmpty = true) := by
          rw [List.isEmpty_iff]
          intro h
          have hlen := congrArg List.length h
          rw [List.length_drop] at hlen
          simp at hlen
          omega
        rw [if_pos hc, if_neg hne]
        simp [String.append_assoc]
      · have hemp : ((((List.range cols).map f).drop (cols - (k + 1) + 1)).isEmpty = true) := by
          rw [List.isEmpty_iff]
          apply List.drop_eq_nil_of_le
          simp
          omega
        rw [if_neg hc, if_pos hemp]
        simp [String.append_assoc]
    · have hstep : (rowLoop cols pCols f (k + 1)).2
          = (if cols - (k + 1) < pCols
             then f (cols - (k + 1))
               ++ (if cols - (k + 1) < pCols - 1 then " & " else "")
               ++ (rowLoop cols pCols f k).2
             else (rowLoop cols pCols f k).2) := rfl
      by_cases hpc : cols - (k + 1) < pCols
      · have hget : (((List.range pCols).map f).drop (cols - (k + 1)))
            = f (cols - (k + 1)) :: ((List.range pCols).map f).drop (cols - (k + 1) + 1) := by
          rw [List.drop_eq_getElem_cons (by simp [hpc])]
          simp
        rw [hstep, if_pos hpc, ih2, hj, hget, joinSep_cons]
        by_cases hc : cols - (k + 1) < pCols - 1
        · have hne : ¬ ((((List.range pCols).map f).drop (cols - (k + 1) + 1)).isEmpty = true) := by
            rw [List.isEmpty_iff]
            intro h
            have hlen := congrArg List.length h
            rw [List.length_drop] at hlen
            simp at hlen
            omega
          rw [if_pos hc, if_neg hne]
          simp [String.append_assoc]
        · have hemp : ((((List.range pCols).map f).drop (cols - (k + 1) + 1)).isEmpty = true) := by
            rw [List.isEmpty_iff]
            apply List.drop_eq_nil_of_le
            simp
            omega
          rw [if_neg hc, if_pos hemp]
          simp [String.append_assoc]
      · have h1 : ((List.range pCols).map f).drop (cols - (k + 1)) = [] := by
          apply List.drop_eq_nil_of_le
          simp
          omega
        have h2 : ((List.range pCols).map f).drop (cols - k) = [] := by
          apply List.drop_eq_nil_of_le
          simp
          omega
        rw [hstep, if_neg hpc, ih2, h1, h2]

theorem map_range_take (f : Nat → String) (p n : Nat) (h : p ≤ n) :
    ((List.range n).map f).take p = (List.range p).map f := by
  rw [← List.map_take]
  congr 1
  simp [List.take_range, Nat.min_eq_left h]

theorem rowBodies_spec (cfg : TableConfig) (rng : Nat → Nat) (i : Nat) :
    (rowBodies cfg rng i).1
        = rowBase cfg i
          ++ joinSep " & " ((List.range cfg.columns).map (styledCell cfg rng i))
      ∧ (rowBodies cfg rng i).2
        = rowBase cfg i
          ++ joinSep " & "
              (((List.range cfg.columns).map (styledCell cfg rng i)).take (min cfg.columns 5)) := by
  have hp : min cfg.columns 5 ≤ cfg.columns := Nat.min_le_left _ _
  obtain ⟨h1, h2⟩ :=
    rowLoop_spec cfg.columns (min cfg.columns 5) (styledCell cfg rng i) hp cfg.columns le_rfl
  rw [Nat.sub_self, List.drop_zero] at h1 h2
  constructor
  · show rowBase cfg i
        ++ (rowLoop cfg.columns (min cfg.columns 5) (styledCell cfg rng i) cfg.columns).1 = _
    rw [h1]
  · show rowBase cfg i
        ++ (rowLoop cfg.columns (min cfg.columns 5) (styledCell cfg rng i) cfg.columns).2 = _
    rw [h2, map_range_take _ _ _ hp]

theorem rowLoop_congr (cols p : Nat) (f g : Nat → String) (h : ∀ j, f j = g j) :
    ∀ k, rowLoop cols p f k = rowLoop cols p g k := by
  intro k
  induction k with
  | zero => rfl
  | succ k ih => simp only [rowLoop, h, ih]

theorem rng_irrelevant (cfg : TableConfig) (rng rng' : Nat → Nat)
    (hnum : cfg.isNumeric = false) :
    generateTable cfg rng = generateTable cfg rng' := by
  have hcell : ∀ i j, cellText cfg rng i j = cellText cfg rng' i j := by
    intro i j
    simp [cellText, hnum]
  have hbody : ∀ i, rowBodies cfg rng i = rowBodies cfg rng' i := by
    intro i
    unfold rowBodies
    rw [rowLoop_congr cfg.columns (min cfg.columns 5) _ _ (fun j => by rw [hcell]) cfg.columns]
  have hpieces : ∀ k, rowPieces cfg rng k = rowPieces cfg rng' k := by
    intro k
    induction k with
    | zero => rfl
    | succ k ih =>
      simp only [rowPieces, ih, rowPieceOut, rowPieceP, hbody]
  unfold generateTable latexOutput latexPreview fullPieces previewPieces
  rw [hpieces]

theorem head_dropWhile_ne_zero (x : List Char) :
    ((x.dropWhile (fun c => c = '0')).head? ≠ some '0') := by
  induction x with
  | nil => simp
  | cons c r ih =>
    rw [List.dropWhile_cons]
    by_cases hc : c = '0'
    · rw [if_pos (by simp [hc])]
      exact ih
    · rw [if_neg (by simp [hc])]
      simp [hc]

theorem stripZeros_getLast (l : List Char) : (stripZeros l).getLast? ≠ some '0' := by
  unfold stripZeros
  rw [List.getLast?_reverse]
  exact head_dropWhile_ne_zero l.reverse

theorem digitChar_eq_zero (d : Nat) (h : digitChar d = '0') : d = 0 := by
  unfold digitChar at h
  split_ifs at h <;> first | assumption | exact absurd h (by decide)

theorem stripZeros_padFour_ne_nil (m : Nat) (hm : m < 10000) (h0 : m ≠ 0) :
    stripZeros (padFour m) ≠ [] := by
  intro hnil
  unfold stripZeros at hnil
  have hdw : (padFour m).reverse.dropWhile (fun c => c = '0') = [] := by
    have := congrArg List.reverse hnil
    simpa using this
  have hall := List.dropWhile_eq_nil_iff.mp hdw
  have h1 : digitChar (m % 10) = '0' := by
    have := hall (digitChar (m % 10)) (by simp [padFour])
    simpa using this
  have h2 : digitChar (m / 10 % 10) = '0' := by
    have := hall (digitChar (m / 10 % 10)) (by simp [padFour])
    simpa using this
  have h3 : digitChar (m / 100 % 10) = '0' := by
    have := hall (digitChar (m / 100 % 10)) (by simp [padFour])
    simpa using this
  have h4 : digitChar (m / 1000 % 10) = '0' := by
    have := hall (digitChar (m / 1000 % 10)) (by simp [padFour])
    simpa using this
  have e1 := digitChar_eq_zero _ h1
  have e2 := digitChar_eq_zero _ h2
  have e3 := digitChar_eq_zero _ h3
  have e4 := digitChar_eq_zero _ h4
  omega

theorem toFixedFour_le (k : Nat) : toFixedFour k ≤ 10000 := by
  unfold toFixedFour
  have hm : k % 2 ^ 53 < 2 ^ 53 := Nat.mod_lt _ (by positivity)
  rw [show (2 : Nat) ^ 53 = 9007199254740992 from by norm_num,
    show (2 : Nat) ^ 52 = 4503599627370496 from by norm_num] at *
  omega

theorem sum_header_out (cfg : TableConfig) (pat : List Char)
    (hhead : headSafeR pat rowEndMark) (hzero : ∃ c ∈ pat, c ∉ ROWCHARS) :
    (((if cfg.hasHeader then
          headerPieceOut cfg :: (if cfg.style ≠ "none" then ["\\hline\n"] else [])
        else []) : List String).map (fun p => countOcc pat p.data)).sum
      = (if cfg.hasHeader then
          countOcc pat rowEndMark
            + (if cfg.style ≠ "none" then countOcc pat ("\\hline\n" : String).data else 0)
         else 0) := by
  by_cases hh : cfg.hasHeader
  · rw [if_pos hh, if_pos hh]
    simp only [List.map_cons, List.sum_cons, sum_ite_piece,
      countOcc_headerPieceOut pat cfg hhead hzero]
  · rw [if_neg hh, if_neg hh]
    rfl

theorem sum_header_p (cfg : TableConfig) (pat : List Char)
    (hhead : headSafeR pat rowEndMark) (hzero : ∃ c ∈ pat, c ∉ ROWCHARS) :
    (((if cfg.hasHeader then
          headerPieceP cfg :: (if cfg.style ≠ "none" then ["\\hline\n"] else [])
        else []) : List String).map (fun p => countOcc pat p.data)).sum
      = (if cfg.hasHeader then
          countOcc pat rowEndMark
            + (if cfg.style ≠ "none" then countOcc pat ("\\hline\n" : String).data else 0)
         else 0) := by
  by_cases hh : cfg.hasHeader
  · rw [if_pos hh, if_pos hh]
    simp only [List.map_cons, List.sum_cons, sum_ite_piece,
      countOcc_headerPieceP pat cfg hhead hzero]
  · rw [if_neg hh, if_neg hh]
    rfl

/-- C1 counterexample: the claim says each data cell of the full output is
the label Column followed by a space and the one-based index, so the
one-by-one non-numeric table would read Column 1; the generated output at
that configuration instead carries the literal label Kolumna1, with the
Polish word and no space, so the claim as stated is false. -/
theorem C1_counterexample :
    latexOutput cfgA rngZero
        = "\\begin\x7btabular\x7d\x7bc \x7d\nKolumna1 \\\\\n\\end\x7btabular\x7d"
      ∧ latexOutput cfgA rngZero
        ≠ "\\begin\x7btabular\x7d\x7bc \x7d\nColumn 1 \\\\\n\\end\x7btabular\x7d"
      ∧ (rowBodies cfgA rngZero 1).1 = "Kolumna1"
      ∧ (rowBodies cfgA rngZero 1).1 ≠ "Column 1" :=
  ⟨by decide, by decide, by decide, by decide⟩

/-- C1 amended: for every configuration with numericCells false, every
data row of the full output is the optional row number cell followed by
the deterministic placeholder labels Kolumna1 up to KolumnaN joined by the
cell separator, each styled per fontStyle, and the header row chunk is the
optional row number header followed by the generated labels, the word
Nagłówek, a space and the one-based index, joined and terminated by the
row end marker. -/
theorem C1_placeholder_labels (cfg : TableConfig) (rng : Nat → Nat) (i : Nat)
    (hnum : cfg.isNumeric = false) :
    (rowBodies cfg rng i).1
        = rowBase cfg i
          ++ joinSep " & " ((List.range cfg.columns).map
              (fun j => applyFontStyle ("Kolumna" ++ natToString (j + 1)) cfg.fontStyle))
      ∧ headerPieceOut cfg
        = (if cfg.autoNumber then applyFontStyle "Numer wiersza" cfg.fontStyle ++ " & " else "")
          ++ joinSep " & " ((List.range cfg.columns).map
              (fun idx => applyFontStyle ("Nagłówek " ++ natToString (idx + 1)) cfg.fontStyle))
          ++ " \\\\\n" := by
  constructor
  · rw [(rowBodies_spec cfg rng i).1]
    congr 1
    congr 1
    apply List.map_congr_left
    intro j _
    unfold styledCell cellText
    rw [if_neg (by simp [hnum])]
  · rfl

/-- C1 witness. -/
theorem C1_placeholder_labels_witness :
    cfgA.isNumeric = false
      ∧ ((rowBodies cfgA rngZero 1).1
          = rowBase cfgA 1
            ++ joinSep " & " ((List.range cfgA.columns).map
                (fun j => applyFontStyle ("Kolumna" ++ natToString (j + 1)) cfgA.fontStyle))
        ∧ headerPieceOut cfgA
          = (if cfgA.autoNumber then applyFontStyle "Numer wiersza" cfgA.fontStyle ++ " & " else "")
            ++ joinSep " & " ((List.range cfgA.columns).map
                (fun idx => applyFontStyle ("Nagłówek " ++ natToString (idx + 1)) cfgA.fontStyle))
            ++ " \\\\\n") :=
  ⟨rfl, C1_placeholder_labels cfgA rngZero 1 rfl⟩

/-- C2 counterexample: the claim says a non-integer rows field fails
validation with the displayed output left unchanged; the handler parses
the field with parseInt, which truncates the decimal text 3.7 to the
integer 3, so generation succeeds and the displayed output changes. -/
theorem C2_counterexample :
    parseIntJS "3.7" = some 3
      ∧ clickGenerate ⟨"3.7", "2", "none", false, false, "normal", false⟩ rngZero "PREV"
        ≠ "PREV" :=
  ⟨by decide, by decide⟩

/-- C2 amended: generation fails, leaving the previously displayed output
unchanged, exactly when parseInt yields NaN on the rows or columns field
or a nonpositive parsed value; a decimal field such as 3.7 is truncated by
parseInt to its leading integer part and generation succeeds. This
theorem proves the failure direction: whenever no positive pair of parsed
values exists, the displayed output is returned unchanged. -/
theorem C2_validation (f : FormState) (rng : Nat → Nat) (prev : String)
    (hfail : ∀ r c : Int, parseIntJS f.rows = some r → parseIntJS f.columns = some c →
      r ≤ 0 ∨ c ≤ 0) :
    clickGenerate f rng prev = prev := by
  unfold clickGenerate
  cases hr : parseIntJS f.rows with
  | none => rfl
  | some r =>
    cases hc : parseIntJS f.columns with
    | none => rfl
    | some c =>
      exact if_pos (hfail r c hr hc)

/-- C2 witness. -/
theorem C2_validation_witness :
    (∀ r c : Int,
        parseIntJS (FormState.rows ⟨"0", "2", "none", false, false, "normal", false⟩)
          = some r →
        parseIntJS (FormState.columns ⟨"0", "2", "none", false, false, "normal", false⟩)
          = some c →
        r ≤ 0 ∨ c ≤ 0)
      ∧ clickGenerate ⟨"0", "2", "none", false, false, "normal", false⟩ rngZero "PREV"
        = "PREV" := by
  have h : ∀ r c : Int,
      parseIntJS (FormState.rows ⟨"0", "2", "none", false, false, "normal", false⟩)
        = some r →
      parseIntJS (FormState.columns ⟨"0", "2", "none", false, false, "normal", false⟩)
        = some c →
      r ≤ 0 ∨ c ≤ 0 := by
    intro r c hr hc
    have h0 : parseIntJS "0" = some 0 := by decide
    rw [show FormState.rows ⟨"0", "2", "none", false, false, "normal", false⟩ = "0" from rfl,
      h0] at hr
    have := Option.some.inj hr
    omega
  exact ⟨h, C2_validation _ rngZero "PREV" h⟩

/-- C3 counterexample: the claim says every numeric cell value lies in the
half-open unit interval; a draw close enough to one, such as the largest
Math.random grid point, is rounded up by toFixed to 1.0000, parseFloat
yields the value one, and the cell renders as the text 1, outside the
claimed interval. -/
theorem C3_counterexample :
    toFixedFour (2 ^ 53 - 1) = 10000
      ∧ randomCellText (2 ^ 53 - 1) = "1"
      ∧ latexOutput cfgNum (fun _ => 2 ^ 53 - 1)
        = "\\begin\x7btabular\x7d\x7bc \x7d\n1 \\\\\n\\end\x7btabular\x7d" :=
  ⟨by decide, by decide, by decide⟩

/-- C3 amended: every numeric cell value is a grid point n over ten
thousand with n at most ten thousand, so it lies in the closed unit
interval and can equal one when the draw rounds up; its text is the
decimal rendering of the value with the trailing zeros of the four-digit
fraction removed, the fraction keeping at most four digits and never
ending in a zero. -/
theorem C3_random_cell_format (k : Nat) :
    toFixedFour k ≤ 10000
      ∧ ∃ fr : List Char,
          randomCellText k
              = natToString (toFixedFour k / 10000)
                ++ (if fr.isEmpty then "" else "." ++ String.mk fr)
            ∧ fr.length ≤ 4
            ∧ fr.getLast? ≠ some '0' := by
  refine ⟨toFixedFour_le k, ?_⟩
  unfold randomCellText fixedText
  by_cases h : toFixedFour k % 10000 = 0
  · refine ⟨[], ?_, by simp, by simp⟩
    rw [if_pos h]
    simp
  · refine ⟨stripZeros (padFour (toFixedFour k % 10000)), ?_, ?_, stripZeros_getLast _⟩
    · rw [if_neg h]
      have hne : stripZeros (padFour (toFixedFour k % 10000)) ≠ [] :=
        stripZeros_padFour_ne_nil _ (Nat.mod_lt _ (by norm_num)) h
      rw [if_neg (by simpa [List.isEmpty_iff] using hne)]
      simp [String.append_assoc]
    · unfold stripZeros
      calc ((padFour (toFixedFour k % 10000)).reverse.dropWhile
              (fun c => c = '0')).reverse.length
          ≤ (padFour (toFixedFour k % 10000)).reverse.length := by
            rw [List.length_reverse]
            exact (List.dropWhile_sublist _).length_le
        _ = 4 := by simp [padFour]

/-- C4 counterexample: the claim says two runs on the same configuration
produce byte-identical output; with numeric cells the output depends on
the Math.random draws, so two runs whose draws differ produce different
strings for the same configuration. -/
theorem C4_counterexample :
    (generateTable cfgNum rngZero).1 ≠ (generateTable cfgNum (fun _ => 2 ^ 52)).1 := by
  decide

/-- C4 amended: a generation run is a pure function of the configuration
together with the sequence of random draws; in particular when
numericCells is false no draw is consumed and the output pair is fully
determined by the configuration alone, identical across runs with any two
draw sequences. -/
theorem C4_purity (cfg : TableConfig) (rng rng' : Nat → Nat)
    (hnum : cfg.isNumeric = false) :
    generateTable cfg rng = generateTable cfg rng' :=
  rng_irrelevant cfg rng rng' hnum

/-- C4 witness. -/
theorem C4_purity_witness :
    cfgA.isNumeric = false
      ∧ generateTable cfgA rngZero = generateTable cfgA (fun _ => 7) :=
  ⟨rfl, C4_purity cfgA rngZero (fun _ => 7) rfl⟩

/-- C5: every preview row is built from the same styled cell sequence as
the corresponding full row, the optional row number cell followed by the
first previewColumns entries of the very cell list the full row joins, so
every shared cell, including a numeric cell and its single random draw,
is byte-identical between preview and full; preview header labels are
likewise the prefix of the full header label list. -/
theorem C5_preview_prefix (cfg : TableConfig) (rng : Nat → Nat) (i : Nat) :
    (rowBodies cfg rng i).1
        = rowBase cfg i
          ++ joinSep " & " ((List.range cfg.columns).map (styledCell cfg rng i))
      ∧ (rowBodies cfg rng i).2
        = rowBase cfg i
          ++ joinSep " & "
              (((List.range cfg.columns).map (styledCell cfg rng i)).take (min cfg.columns 5))
      ∧ headerCells cfg (min cfg.columns 5)
        = (headerCells cfg cfg.columns).take (min cfg.columns 5) := by
  refine ⟨(rowBodies_spec cfg rng i).1, (rowBodies_spec cfg rng i).2, ?_⟩
  unfold headerCells
  rw [map_range_take _ _ _ (Nat.min_le_left _ _)]

/-- C8: for every valid configuration, the number of row end markers in
the full output equals rows, plus one when hasHeader is set. -/
theorem C8_row_end_count (cfg : TableConfig) (rng : Nat → Nat)
    (hr : 1 ≤ cfg.rows) (hc : 1 ≤ cfg.columns) :
    countOcc rowEndMark (latexOutput cfg rng).data
      = cfg.rows + (if cfg.hasHeader then 1 else 0) := by
  unfold latexOutput
  rw [countOcc_strJoin rowEndMark _
    (fullPieces_tailSafe cfg rng rowEndMark (by decide) (by decide) (by decide))]
  unfold fullPieces
  simp only [List.cons_append, List.nil_append, List.map_append, List.sum_append,
    List.map_cons, List.map_nil, List.sum_cons, List.sum_nil]
  rw [sum_header_out cfg rowEndMark (by decide) (by decide)]
  rw [rowSum_out_one cfg rng rowEndMark
    (fun i => by
      rw [countOcc_rowPieceOut rowEndMark cfg rng i (by decide) (by decide)]
      decide)
    (by decide) cfg.rows]
  rw [sum_ite_piece]
  rw [countOcc_stylePiece rowEndMark cfg.style cfg.autoNumber _
    (by decide) (by decide) (by decide)]
  have e1 : countOcc rowEndMark ("\\begin\x7btabular\x7d\x7b" : String).data = 0 := by decide
  have e2 : countOcc rowEndMark ("\x7d\n\\hline\n" : String).data = 0 := by decide
  have e3 : countOcc rowEndMark ("\x7d\n" : String).data = 0 := by decide
  have e4 : countOcc rowEndMark rowEndMark = 1 := by decide
  have e5 : countOcc rowEndMark ("\\hline\n" : String).data = 0 := by decide
  have e6 : countOcc rowEndMark ("\\end\x7btabular\x7d" : String).data = 0 := by decide
  simp only [e1, e2, e3, e4, e5, e6, ite_self]
  split_ifs <;> omega

/-- C8 witness. -/
theorem C8_row_end_count_witness :
    1 ≤ cfgA.rows ∧ 1 ≤ cfgA.columns
      ∧ countOcc rowEndMark (latexOutput cfgA rngZero).data
        = cfgA.rows + (if cfgA.hasHeader then 1 else 0) :=
  ⟨by decide, by decide, C8_row_end_count cfgA rngZero (by decide) (by decide)⟩

theorem count_amp_zero_of_chars (s : String) (h : ∀ c ∈ s.data, c ∈ CELLCHARS) :
    s.data.count '&' = 0 := by
  rw [List.count_eq_zero]
  intro hmem
  exact absurd (h _ hmem) (by decide)

theorem count_amp_joinSep (cells : List String)
    (h : ∀ s ∈ cells, s.data.count '&' = 0) :
    (joinSep " & " cells).data.count '&' = cells.length - 1 := by
  induction cells with
  | nil => rfl
  | cons s rest ih =>
    cases rest with
    | nil =>
      rw [show joinSep " & " [s] = s from rfl, h s (by simp)]
      simp
    | cons t r =>
      rw [show joinSep " & " (s :: t :: r) = s ++ " & " ++ joinSep " & " (t :: r) from rfl,
        strData_append, strData_append, List.count_append, List.count_append,
        h s (by simp), ih (fun u hu => h u (List.mem_cons_of_mem s hu))]
      have : (" & " : String).data.count '&' = 1 := by decide
      rw [this]
      simp
      omega

theorem count_amp_rowBodyP (cfg : TableConfig) (rng : Nat → Nat) (i : Nat)
    (hc : 1 ≤ cfg.columns) :
    ((rowBodies cfg rng i).2).data.count '&' = totalPreviewColumns cfg - 1 := by
  rw [(rowBodies_spec cfg rng i).2, strData_append, List.count_append]
  have hcells : ∀ s ∈ ((List.range cfg.columns).map (styledCell cfg rng i)).take
      (min cfg.columns 5), s.data.count '&' = 0 := by
    intro s hs
    have hs' := List.mem_of_mem_take hs
    obtain ⟨j, _, hj⟩ := List.mem_map.mp hs'
    rw [← hj]
    exact count_amp_zero_of_chars _ (applyFontStyle_chars _ _ (cellText_chars cfg rng i j))
  rw [count_amp_joinSep _ hcells]
  have hlen : (((List.range cfg.columns).map (styledCell cfg rng i)).take
      (min cfg.columns 5)).length = min cfg.columns 5 := by
    rw [List.length_take]
    simp
    try omega
  rw [hlen]
  unfold rowBase totalPreviewColumns
  by_cases ha : cfg.autoNumber
  · rw [if_pos ha, if_pos ha, strData_append, List.count_append,
      count_amp_zero_of_chars _ (applyFontStyle_chars _ _ (natToString_chars i))]
    have : (" & " : String).data.count '&' = 1 := by decide
    rw [this]
    try omega
  · rw [if_neg ha, if_neg ha]
    have : ("" : String).data.count '&' = 0 := rfl
    rw [this]
    try omega

/-- C6: for every valid configuration the preview contains exactly the
minimum of rows and five data rows, plus one header row when hasHeader,
counted by its row end markers; and every preview data row consists of
exactly the minimum of columns and five cells plus the optional row
number cell, counted by its cell separators, one fewer than the preview
column total. -/
theorem C6_preview_shape (cfg : TableConfig) (rng : Nat → Nat)
    (hr : 1 ≤ cfg.rows) (hc : 1 ≤ cfg.columns) :
    countOcc rowEndMark (latexPreview cfg rng).data
        = min cfg.rows 5 + (if cfg.hasHeader then 1 else 0)
      ∧ ∀ i : Nat, ((rowBodies cfg rng i).2).data.count '&'
        = totalPreviewColumns cfg - 1 := by
  constructor
  · unfold latexPreview
    rw [countOcc_strJoin rowEndMark _
      (previewPieces_tailSafe cfg rng rowEndMark (by decide) (by decide) (by decide))]
    unfold previewPieces
    simp only [List.cons_append, List.nil_append, List.map_append, List.sum_append,
      List.map_cons, List.map_nil, List.sum_cons, List.sum_nil]
    rw [sum_header_p cfg rowEndMark (by decide) (by decide)]
    rw [rowSum_p_one cfg rng rowEndMark
      (fun i => by
        rw [countOcc_rowPieceP rowEndMark cfg rng i (by decide) (by decide)]
        decide)
      (by decide) cfg.rows le_rfl]
    rw [sum_ite_piece]
    rw [countOcc_stylePiece rowEndMark cfg.style cfg.autoNumber _
      (by decide) (by decide) (by decide)]
    have e1 : countOcc rowEndMark ("\\begin\x7barray\x7d\x7b" : String).data = 0 := by decide
    have e2 : countOcc rowEndMark ("\x7d\n\\hline\n" : String).data = 0 := by decide
    have e3 : countOcc rowEndMark ("\x7d\n" : String).data = 0 := by decide
    have e4 : countOcc rowEndMark rowEndMark = 1 := by decide
    have e5 : countOcc rowEndMark ("\\hline\n" : String).data = 0 := by decide
    have e6 : countOcc rowEndMark ("\\end\x7barray\x7d" : String).data = 0 := by decide
    simp only [e1, e2, e3, e4, e5, e6, ite_self]
    split_ifs <;> omega
  · intro i
    exact count_amp_rowBodyP cfg rng i hc

/-- C6 witness. -/
theorem C6_preview_shape_witness :
    1 ≤ cfgA.rows ∧ 1 ≤ cfgA.columns
      ∧ (countOcc rowEndMark (latexPreview cfgA rngZero).data
          = min cfgA.rows 5 + (if cfgA.hasHeader then 1 else 0)
        ∧ ∀ i : Nat, ((rowBodies cfgA rngZero i).2).data.count '&'
          = totalPreviewColumns cfgA - 1) :=
  ⟨by decide, by decide, C6_preview_shape cfgA rngZero (by decide) (by decide)⟩

theorem hline_count_out (cfg : TableConfig) (rng : Nat → Nat) :
    countOcc hlineMark (latexOutput cfg rng).data
      = (if cfg.style = "full" then 1 else 0)
        + (if cfg.hasHeader then (if cfg.style ≠ "none" then 1 else 0) else 0)
        + (if cfg.style = "horizontal" ∨ cfg.style = "full" then cfg.rows - 1 else 0)
        + (if cfg.style = "full" then 1 else 0) := by
  unfold latexOutput
  rw [countOcc_strJoin hlineMark _
    (fullPieces_tailSafe cfg rng hlineMark (by decide) (by decide) (by decide))]
  unfold fullPieces
  simp only [List.cons_append, List.nil_append, List.map_append, List.sum_append,
    List.map_cons, List.map_nil, List.sum_cons, List.sum_nil]
  rw [sum_header_out cfg hlineMark (by decide) (by decide)]
  rw [rowSum_out_hline cfg rng hlineMark
    (fun i => by
      rw [countOcc_rowPieceOut hlineMark cfg rng i (by decide) (by decide)]
      decide)
    (by decide) cfg.rows le_rfl]
  rw [sum_ite_piece]
  rw [countOcc_stylePiece hlineMark cfg.style cfg.autoNumber _
    (by decide) (by decide) (by decide)]
  have e1 : countOcc hlineMark ("\\begin\x7btabular\x7d\x7b" : String).data = 0 := by decide
  have e2 : countOcc hlineMark ("\x7d\n\\hline\n" : String).data = 1 := by decide
  have e3 : countOcc hlineMark ("\x7d\n" : String).data = 0 := by decide
  have e4 : countOcc hlineMark rowEndMark = 0 := by decide
  have e5 : countOcc hlineMark ("\\hline\n" : String).data = 1 := by decide
  have e6 : countOcc hlineMark ("\\end\x7btabular\x7d" : String).data = 0 := by decide
  simp only [e1, e2, e3, e4, e5, e6, ite_self]
  split_ifs <;> omega

theorem hline_count_p (cfg : TableConfig) (rng : Nat → Nat) :
    countOcc hlineMark (latexPreview cfg rng).data
      = (if cfg.style = "full" then 1 else 0)
        + (if cfg.hasHeader then (if cfg.style ≠ "none" then 1 else 0) else 0)
        + (if cfg.style = "horizontal" ∨ cfg.style = "full" then min cfg.rows 5 - 1 else 0)
        + (if cfg.style = "full" then 1 else 0) := by
  unfold latexPreview
  rw [countOcc_strJoin hlineMark _
    (previewPieces_tailSafe cfg rng hlineMark (by decide) (by decide) (by decide))]
  unfold previewPieces
  simp only [List.cons_append, List.nil_append, List.map_append, List.sum_append,
    List.map_cons, List.map_nil, List.sum_cons, List.sum_nil]
  rw [sum_header_p cfg hlineMark (by decide) (by decide)]
  rw [rowSum_p_hline cfg rng hlineMark
    (fun i => by
      rw [countOcc_rowPieceP hlineMark cfg rng i (by decide) (by decide)]
      decide)
    (by decide) cfg.rows le_rfl]
  rw [sum_ite_piece]
  rw [countOcc_stylePiece hlineMark cfg.style cfg.autoNumber _
    (by decide) (by decide) (by decide)]
  have e1 : countOcc hlineMark ("\\begin\x7barray\x7d\x7b" : String).data = 0 := by decide
  have e2 : countOcc hlineMark ("\x7d\n\\hline\n" : String).data = 1 := by decide
  have e3 : countOcc hlineMark ("\x7d\n" : String).data = 0 := by decide
  have e4 : countOcc hlineMark rowEndMark = 0 := by decide
  have e5 : countOcc hlineMark ("\\hline\n" : String).data = 1 := by decide
  have e6 : countOcc hlineMark ("\\end\x7barray\x7d" : String).data = 0 := by decide
  simp only [e1, e2, e3, e4, e5, e6, ite_self]
  split_ifs <;> omega

theorem latexOutput_head (cfg : TableConfig) (rng : Nat → Nat) :
    ∃ r, latexOutput cfg rng
      = "\\begin\x7btabular\x7d\x7b"
        ++ (stylePiece cfg.style cfg.autoNumber (totalColumns cfg) ++ r) :=
  ⟨_, rfl⟩

theorem latexPreview_head (cfg : TableConfig) (rng : Nat → Nat) :
    ∃ r, latexPreview cfg rng
      = "\\begin\x7barray\x7d\x7b"
        ++ (stylePiece cfg.style cfg.autoNumber (totalPreviewColumns cfg) ++ r) :=
  ⟨_, rfl⟩

/-- C7: borderStyle alone fixes the column specification and the rule
lines, identically in full and preview over their respective column
totals. Style full marks every boundary including the outer edges, emits
a leading rule, and its rule count is one leading rule plus one rule
after every data row including the last plus the header rule. Style
horizontal has no vertical boundary except the single separator after the
row number column when numbering is on, no leading rule, and rules after
every data row except the last. Any other style has no boundaries, and
its only possible rule is the header rule, present exactly when the style
differs from none. The one-by-one full example yields the boundary
specification bar c bar with a leading rule and a rule after its single
row. -/
theorem C7_border_rules (cfg : TableConfig) (rng : Nat → Nat)
    (hr : 1 ≤ cfg.rows) (hc : 1 ≤ cfg.columns) :
    (cfg.style = "full" →
        (∃ r, latexOutput cfg rng
            = "\\begin\x7btabular\x7d\x7b"
              ++ (("|" ++ srep "c|" (totalColumns cfg) ++ "\x7d\n\\hline\n") ++ r))
        ∧ (∃ r, latexPreview cfg rng
            = "\\begin\x7barray\x7d\x7b"
              ++ (("|" ++ srep "c|" (totalPreviewColumns cfg) ++ "\x7d\n\\hline\n") ++ r))
        ∧ countOcc hlineMark (latexOutput cfg rng).data
            = cfg.rows + 1 + (if cfg.hasHeader then 1 else 0)
        ∧ countOcc hlineMark (latexPreview cfg rng).data
            = min cfg.rows 5 + 1 + (if cfg.hasHeader then 1 else 0))
    ∧ (cfg.style = "horizontal" →
        (∃ r, latexOutput cfg rng
            = "\\begin\x7btabular\x7d\x7b"
              ++ (((if cfg.autoNumber then "c|" ++ srep "c " (totalColumns cfg - 1)
                    else srep "c " (totalColumns cfg)) ++ "\x7d\n") ++ r))
        ∧ (∃ r, latexPreview cfg rng
            = "\\begin\x7barray\x7d\x7b"
              ++ (((if cfg.autoNumber then "c|" ++ srep "c " (totalPreviewColumns cfg - 1)
                    else srep "c " (totalPreviewColumns cfg)) ++ "\x7d\n") ++ r))
        ∧ countOcc hlineMark (latexOutput cfg rng).data
            = cfg.rows - 1 + (if cfg.hasHeader then 1 else 0)
        ∧ countOcc hlineMark (latexPreview cfg rng).data
            = min cfg.rows 5 - 1 + (if cfg.hasHeader then 1 else 0))
    ∧ (cfg.style ≠ "full" → cfg.style ≠ "horizontal" →
        (∃ r, latexOutput cfg rng
            = "\\begin\x7btabular\x7d\x7b"
              ++ ((srep "c " (totalColumns cfg) ++ "\x7d\n") ++ r))
        ∧ (∃ r, latexPreview cfg rng
            = "\\begin\x7barray\x7d\x7b"
              ++ ((srep "c " (totalPreviewColumns cfg) ++ "\x7d\n") ++ r))
        ∧ countOcc hlineMark (latexOutput cfg rng).data
            = (if cfg.hasHeader then (if cfg.style ≠ "none" then 1 else 0) else 0)
        ∧ countOcc hlineMark (latexPreview cfg rng).data
            = (if cfg.hasHeader then (if cfg.style ≠ "none" then 1 else 0) else 0))
    ∧ latexOutput ⟨1, 1, "full", false, false, "normal", false⟩ rngZero
        = "\\begin\x7btabular\x7d\x7b|c|\x7d\n\\hline\nKolumna1 \\\\\n\\hline\n\\end\x7btabular\x7d" := by
  refine ⟨?_, ?_, ?_, by decide⟩
  · intro h
    refine ⟨?_, ?_, ?_, ?_⟩
    · obtain ⟨r, hdec⟩ := latexOutput_head cfg rng
      refine ⟨r, ?_⟩
      rw [hdec, h,
        show ∀ b n, stylePiece "full" b n = "|" ++ srep "c|" n ++ "\x7d\n\\hline\n"
          from fun b n => by unfold stylePiece; rw [if_pos rfl]]
    · obtain ⟨r, hdec⟩ := latexPreview_head cfg rng
      refine ⟨r, ?_⟩
      rw [hdec, h,
        show ∀ b n, stylePiece "full" b n = "|" ++ srep "c|" n ++ "\x7d\n\\hline\n"
          from fun b n => by unfold stylePiece; rw [if_pos rfl]]
    · rw [hline_count_out cfg rng, h]
      by_cases hh : cfg.hasHeader <;> simp [hh] <;> omega
    · rw [hline_count_p cfg rng, h]
      by_cases hh : cfg.hasHeader <;> simp [hh] <;> omega
  · intro h
    have hne : ¬ (cfg.style = "full") := by rw [h]; decide
    have hsty : ∀ b n, stylePiece "horizontal" b n
        = (if b then "c|" ++ srep "c " (n - 1) else srep "c " n) ++ "\x7d\n" := by
      intro b n
      unfold stylePiece
      rw [if_neg (by decide), if_pos rfl]
    refine ⟨?_, ?_, ?_, ?_⟩
    · obtain ⟨r, hdec⟩ := latexOutput_head cfg rng
      refine ⟨r, ?_⟩
      rw [hdec, h, hsty]
    · obtain ⟨r, hdec⟩ := latexPreview_head cfg rng
      refine ⟨r, ?_⟩
      rw [hdec, h, hsty]
    · rw [hline_count_out cfg rng, h]
      by_cases hh : cfg.hasHeader <;> simp [hh] <;> omega
    · rw [hline_count_p cfg rng, h]
      by_cases hh : cfg.hasHeader <;> simp [hh] <;> omega
  · intro h1 h2
    have hsp : stylePiece cfg.style cfg.autoNumber (totalColumns cfg)
        = srep "c " (totalColumns cfg) ++ "\x7d\n" := by
      unfold stylePiece
      rw [if_neg h1, if_neg h2]
    have hspp : stylePiece cfg.style cfg.autoNumber (totalPreviewColumns cfg)
        = srep "c " (totalPreviewColumns cfg) ++ "\x7d\n" := by
      unfold stylePiece
      rw [if_neg h1, if_neg h2]
    have hor : ¬ (cfg.style = "horizontal" ∨ cfg.style = "full") :=
      fun hd => hd.elim h2 h1
    refine ⟨?_, ?_, ?_, ?_⟩
    · obtain ⟨r, hdec⟩ := latexOutput_head cfg rng
      exact ⟨r, by rw [hdec, hsp]⟩
    · obtain ⟨r, hdec⟩ := latexPreview_head cfg rng
      exact ⟨r, by rw [hdec, hspp]⟩
    · rw [hline_count_out cfg rng, if_neg h1, if_neg hor]
      simp
    · rw [hline_count_p cfg rng, if_neg h1, if_neg hor]
      simp

/-- C7 witness. -/
theorem C7_border_rules_witness :
    1 ≤ cfgA.rows ∧ 1 ≤ cfgA.columns
      ∧ ((cfgA.style ≠ "full" → cfgA.style ≠ "horizontal" →
          (∃ r, latexOutput cfgA rngZero
              = "\\begin\x7btabular\x7d\x7b"
                ++ ((srep "c " (totalColumns cfgA) ++ "\x7d\n") ++ r))
          ∧ (∃ r, latexPreview cfgA rngZero
              = "\\begin\x7barray\x7d\x7b"
                ++ ((srep "c " (totalPreviewColumns cfgA) ++ "\x7d\n") ++ r))
          ∧ countOcc hlineMark (latexOutput cfgA rngZero).data
              = (if cfgA.hasHeader then (if cfgA.style ≠ "none" then 1 else 0) else 0)
          ∧ countOcc hlineMark (latexPreview cfgA rngZero).data
              = (if cfgA.hasHeader then (if cfgA.style ≠ "none" then 1 else 0) else 0))
        ∧ latexOutput ⟨1, 1, "full", false, false, "normal", false⟩ rngZero
          = "\\begin\x7btabular\x7d\x7b|c|\x7d\n\\hline\nKolumna1 \\\\\n\\hline\n\\end\x7btabular\x7d") :=
  ⟨by decide, by decide,
    (C7_border_rules cfgA rngZero (by decide) (by decide)).2.2.1,
    (C7_border_rules cfgA rngZero (by decide) (by decide)).2.2.2⟩

theorem strJoin_append (xs ys : List String) :
    strJoin (xs ++ ys) = strJoin xs ++ strJoin ys := by
  induction xs with
  | nil => simp [strJoin]
  | cons a xs ih => simp [strJoin, ih, String.append_assoc]

theorem strJoin_ends (xs : List String) (e : String) :
    strJoin (xs ++ [e]) = strJoin xs ++ e := by
  rw [strJoin_append]
  simp [strJoin]

theorem stylePiece_chars (s : String) (b : Bool) (n : Nat) :
    ∀ c ∈ (stylePiece s b n).data, c ∈ ("c| \x7d\n\\hline" : String).data := by
  intro c hc
  unfold stylePiece at hc
  split_ifs at hc
  · rw [strData_append, strData_append] at hc
    rcases List.mem_append.mp hc with h1 | h2
    · rcases List.mem_append.mp h1 with h3 | h4
      · exact (by decide : ∀ x ∈ "|".data, x ∈ ("c| \x7d\n\\hline" : String).data) c h3
      · exact (by decide : ∀ x ∈ "c|".data, x ∈ ("c| \x7d\n\\hline" : String).data) c
          (srep_chars _ _ c h4)
    · exact (by decide : ∀ x ∈ "\x7d\n\\hline\n".data,
        x ∈ ("c| \x7d\n\\hline" : String).data) c h2
  · rw [strData_append, strData_append] at hc
    rcases List.mem_append.mp hc with h1 | h2
    · rcases List.mem_append.mp h1 with h3 | h4
      · exact (by decide : ∀ x ∈ "c|".data, x ∈ ("c| \x7d\n\\hline" : String).data) c h3
      · exact (by decide : ∀ x ∈ "c ".data, x ∈ ("c| \x7d\n\\hline" : String).data) c
          (srep_chars _ _ c h4)
    · exact (by decide : ∀ x ∈ "\x7d\n".data,
        x ∈ ("c| \x7d\n\\hline" : String).data) c h2
  · rw [strData_append] at hc
    rcases List.mem_append.mp hc with h1 | h2
    · exact (by decide : ∀ x ∈ "c ".data, x ∈ ("c| \x7d\n\\hline" : String).data) c
        (srep_chars _ _ c h1)
    · exact (by decide : ∀ x ∈ "\x7d\n".data,
        x ∈ ("c| \x7d\n\\hline" : String).data) c h2
  · rw [strData_append] at hc
    rcases List.mem_append.mp hc with h1 | h2
    · exact (by decide : ∀ x ∈ "c ".data, x ∈ ("c| \x7d\n\\hline" : String).data) c
        (srep_chars _ _ c h1)
    · exact (by decide : ∀ x ∈ "\x7d\n".data,
        x ∈ ("c| \x7d\n\\hline" : String).data) c h2

theorem countOcc_stylePiece_zero (pat : List Char) (s : String) (b : Bool) (n : Nat)
    (hy : ∃ c ∈ pat, c ∉ ("c| \x7d\n\\hline" : String).data) :
    countOcc pat (stylePiece s b n).data = 0 := by
  obtain ⟨c, h1, h2⟩ := hy
  exact countOcc_eq_zero_of_not_mem pat h1 (fun hm => h2 (stylePiece_chars s b n c hm))

/-- C9: the full output opens with the tabular begin directive and closes
with the tabular end directive; the preview opens with the math array
begin directive and closes with the array end directive, and it is an
independently balanced markup: the array begin and array end directives
each occur exactly once in it, and it carries one row end marker per row,
the preview row count plus the optional header row, so it is never a
truncated fragment of the full output. -/
theorem C9_delimiters (cfg : TableConfig) (rng : Nat → Nat)
    (hr : 1 ≤ cfg.rows) (hc : 1 ≤ cfg.columns) :
    (∃ r, latexOutput cfg rng = "\\begin\x7btabular\x7d\x7b" ++ r)
      ∧ (∃ p, latexOutput cfg rng = p ++ "\\end\x7btabular\x7d")
      ∧ (∃ r, latexPreview cfg rng = "\\begin\x7barray\x7d\x7b" ++ r)
      ∧ (∃ p, latexPreview cfg rng = p ++ "\\end\x7barray\x7d")
      ∧ countOcc beginArrMark (latexPreview cfg rng).data = 1
      ∧ countOcc endArrMark (latexPreview cfg rng).data = 1
      ∧ countOcc rowEndMark (latexPreview cfg rng).data
        = min cfg.rows 5 + (if cfg.hasHeader then 1 else 0) := by
  refine ⟨⟨_, rfl⟩, ?_, ⟨_, rfl⟩, ?_, ?_, ?_, ?_⟩
  · unfold latexOutput fullPieces
    exact ⟨_, strJoin_ends _ _⟩
  · unfold latexPreview previewPieces
    exact ⟨_, strJoin_ends _ _⟩
  · unfold latexPreview
    rw [countOcc_strJoin beginArrMark _
      (previewPieces_tailSafe cfg rng beginArrMark (by decide) (by decide) (by decide))]
    unfold previewPieces
    simp only [List.cons_append, List.nil_append, List.map_append, List.sum_append,
      List.map_cons, List.map_nil, List.sum_cons, List.sum_nil]
    rw [sum_header_p cfg beginArrMark (by decide) (by decide)]
    rw [rowSum_p_zero cfg rng beginArrMark
      (fun i => by
        rw [countOcc_rowPieceP beginArrMark cfg rng i (by decide) (by decide)]
        decide)
      (by decide) cfg.rows]
    rw [sum_ite_piece]
    rw [countOcc_stylePiece_zero beginArrMark cfg.style cfg.autoNumber _ (by decide)]
    have e1 : countOcc beginArrMark ("\\begin\x7barray\x7d\x7b" : String).data = 1 := by decide
    have e4 : countOcc beginArrMark rowEndMark = 0 := by decide
    have e5 : countOcc beginArrMark ("\\hline\n" : String).data = 0 := by decide
    have e6 : countOcc beginArrMark ("\\end\x7barray\x7d" : String).data = 0 := by decide
    simp [e1, e4, e5, e6]
  · unfold latexPreview
    rw [countOcc_strJoin endArrMark _
      (previewPieces_tailSafe cfg rng endArrMark (by decide) (by decide) (by decide))]
    unfold previewPieces
    simp only [List.cons_append, List.nil_append, List.map_append, List.sum_append,
      List.map_cons, List.map_nil, List.sum_cons, List.sum_nil]
    rw [sum_header_p cfg endArrMark (by decide) (by decide)]
    rw [rowSum_p_zero cfg rng endArrMark
      (fun i => by
        rw [countOcc_rowPieceP endArrMark cfg rng i (by decide) (by decide)]
        decide)
      (by decide) cfg.rows]
    rw [sum_ite_piece]
    rw [countOcc_stylePiece_zero endArrMark cfg.style cfg.autoNumber _ (by decide)]
    have e1 : countOcc endArrMark ("\\begin\x7barray\x7d\x7b" : String).data = 0 := by decide
    have e4 : countOcc endArrMark rowEndMark = 0 := by decide
    have e5 : countOcc endArrMark ("\\hline\n" : String).data = 0 := by decide
    have e6 : countOcc endArrMark ("\\end\x7barray\x7d" : String).data = 1 := by decide
    simp [e1, e4, e5, e6]
  · unfold latexPreview
    rw [countOcc_strJoin rowEndMark _
      (previewPieces_tailSafe cfg rng rowEndMark (by decide) (by decide) (by decide))]
    unfold previewPieces
    simp only [List.cons_append, List.nil_append, List.map_append, List.sum_append,
      List.map_cons, List.map_nil, List.sum_cons, List.sum_nil]
    rw [sum_header_p cfg rowEndMark (by decide) (by decide)]
    rw [rowSum_p_one cfg rng rowEndMark
      (fun i => by
        rw [countOcc_rowPieceP rowEndMark cfg rng i (by decide) (by decide)]
        decide)
      (by decide) cfg.rows le_rfl]
    rw [sum_ite_piece]
    rw [countOcc_stylePiece rowEndMark cfg.style cfg.autoNumber _
      (by decide) (by decide) (by decide)]
    have e1 : countOcc rowEndMark ("\\begin\x7barray\x7d\x7b" : String).data = 0 := by decide
    have e2 : countOcc rowEndMark ("\x7d\n\\hline\n" : String).data = 0 := by decide
    have e3 : countOcc rowEndMark ("\x7d\n" : String).data = 0 := by decide
    have e4 : countOcc rowEndMark rowEndMark = 1 := by decide
    have e5 : countOcc rowEndMark ("\\hline\n" : String).data = 0 := by decide
    have e6 : countOcc rowEndMark ("\\end\x7barray\x7d" : String).data = 0 := by decide
    simp only [e1, e2, e3, e4, e5, e6, ite_self]
    split_ifs <;> omega

/-- C9 witness. -/
theorem C9_delimiters_witness :
    1 ≤ cfgA.rows ∧ 1 ≤ cfgA.columns
      ∧ ((∃ r, latexOutput cfgA rngZero = "\\begin\x7btabular\x7d\x7b" ++ r)
        ∧ (∃ p, latexOutput cfgA rngZero = p ++ "\\end\x7btabular\x7d")
        ∧ (∃ r, latexPreview cfgA rngZero = "\\begin\x7barray\x7d\x7b" ++ r)
        ∧ (∃ p, latexPreview cfgA rngZero = p ++ "\\end\x7barray\x7d")
        ∧ countOcc beginArrMark (latexPreview cfgA rngZero).data = 1
        ∧ countOcc endArrMark (latexPreview cfgA rngZero).data = 1
        ∧ countOcc rowEndMark (latexPreview cfgA rngZero).data
          = min cfgA.rows 5 + (if cfgA.hasHeader then 1 else 0)) :=
  ⟨by decide, by decide, C9_delimiters cfgA rngZero (by decide) (by decide)⟩

/-- C10: applyFontStyle returns its input unchanged for every fontStyle
value other than bold, not only normal; the column specification
branching treats every style other than full and horizontal exactly as
none; and generation is total over arbitrary strings in these fields, an
unrecognized value falling through to the default branch while the
output still opens with the table directive. -/
theorem C10_default_branches (text fs : String) (cfg : TableConfig) (rng : Nat → Nat)
    (n : Nat) (hfs : fs ≠ "bold") (h1 : cfg.style ≠ "full") (h2 : cfg.style ≠ "horizontal") :
    applyFontStyle text fs = text
      ∧ stylePiece cfg.style cfg.autoNumber n = stylePiece "none" cfg.autoNumber n
      ∧ (∃ r, (generateTable cfg rng).1 = "\\begin\x7btabular\x7d\x7b" ++ r) := by
  refine ⟨?_, ?_, ⟨_, rfl⟩⟩
  · unfold applyFontStyle
    rw [if_neg hfs]
  · unfold stylePiece
    rw [if_neg h1, if_neg h2, if_neg (by decide : ¬ ("none" : String) = "full"),
      if_neg (by decide : ¬ ("none" : String) = "horizontal")]

/-- C10 witness. -/
theorem C10_default_branches_witness :
    ("italic" : String) ≠ "bold"
      ∧ ("dotted" : String) ≠ "full"
      ∧ ("dotted" : String) ≠ "horizontal"
      ∧ (applyFontStyle "x" "italic" = "x"
        ∧ stylePiece "dotted" true 3 = stylePiece "none" true 3
        ∧ (∃ r, (generateTable ⟨2, 2, "dotted", false, true, "italic", false⟩ rngZero).1
            = "\\begin\x7btabular\x7d\x7b" ++ r)) :=
  ⟨by decide, by decide, by decide,
    C10_default_branches "x" "italic" ⟨2, 2, "dotted", false, true, "italic", false⟩
      rngZero 3 (by decide) (by decide) (by decide)⟩
